import Mathlib

/-!
Ring buffer between stdin and stdout (`circ_buff.c`).

Shallow embedding of `src/circ_buff.c`.

* `unsigned int` values are `Nat`; every place where the C code converts an
  `int` to `unsigned int` or does `unsigned int` arithmetic goes through `toU32`.
* The storage `buf` is a `List Byte`; `read(fd, buf+head, k)` delivering the
  bytes `bs` replaces `buf[head .. head + bs.length)` by `bs`.
* The operating system is an explicit schedule: every `read` call consumes one
  `ReadRes`, every `write` call is given the value it returns, every `select`
  is given which descriptors are ready.
* Besides the C variables the states carry a trace (`stored`, `sent`, `reqs`):
  the bytes `read` put into the buffer, the bytes `write` took out of it and
  the `(offset, count)` pairs the system calls were issued with.
-/

namespace CircBuff

abbrev Byte := UInt8

/-- Conversion of a C integer value to `unsigned int` (32 bits, wrap-around). -/
def toU32 (x : Int) : Nat := (x % 4294967296).toNat

/-- Lines 82-84: `empty_buf`. -/
def empty_buf (head tail : Nat) : Bool := head == tail

/-- Values of `errno` after a failed call; `EOTHER` is any value the code does not name. -/
inductive Errno where
  | EAGAIN
  | EWOULDBLOCK
  | EINTR
  | EOTHER
deriving DecidableEq, Repr

/-- Outcome of one `read(fd, buf+head, size-head)` call: `fail e` is the result `-1` with
`errno = e`; `data bs` is the result `bs.length` with the bytes `bs` placed at `buf+head`
(`data []` is the result `0`, end of stream). -/
inductive ReadRes where
  | fail (errno : Errno)
  | data (bytes : List Byte)
deriving DecidableEq, Repr

/-- The value `read` returns for an outcome. -/
def ReadRes.ret : ReadRes → Int
  | .fail _ => -1
  | .data bs => (bs.length : Int)

/-- Effect of `read` on the storage: `bs` is written at offset `off`. -/
def store (buf : List Byte) (off : Nat) (bs : List Byte) : List Byte :=
  buf.take off ++ bs ++ buf.drop (off + bs.length)

/-- Bytes the sink takes when `write(fd, buf+off, _)` returns `n`: the first `n` bytes at
`buf+off` (none when `n` is not positive). -/
def taken (buf : List Byte) (off : Nat) (n : Int) : List Byte :=
  (buf.drop off).take n.toNat

/-- Local variables of `c_read` (lines 93-97) together with the storage and the trace. -/
structure ReadState where
  buf : List Byte
  head : Nat
  tail : Nat
  more_bytes : Bool
  n : Int
  c : Int
  stored : List Byte
  reqs : List (Nat × Nat)
deriving DecidableEq, Repr

/-- Lines 100-129: one pass through the body of `while(more_bytes)` in `c_read`, the `read`
call of line 103 having the outcome `r`. -/
def c_read_body (size : Nat) (s : ReadState) (r : ReadRes) : ReadState :=
  let in_front : Bool := decide (s.tail > s.head)
  let reqs := s.reqs ++ [(s.head, toU32 ((size : Int) - s.head))]
  match r with
  | .fail e =>
    -- n == -1
    { s with
      more_bytes := false
      n := -1
      c := if e = Errno.EAGAIN ∨ e = Errno.EWOULDBLOCK ∨ e = Errno.EINTR then 0 else -1
      reqs := reqs }
  | .data bs =>
    let n : Int := (bs.length : Int)
    let buf := store s.buf s.head bs
    if n = 0 then
      { s with more_bytes := false, n := n, c := -1, reqs := reqs }
    else if toU32 n ≠ toU32 ((size : Int) - s.head) then
      let head := toU32 ((s.head : Int) + n) % size
      let tail :=
        if in_front && (decide (head ≥ s.tail) || head == 0) then toU32 ((head : Int) + 1) % size
        else s.tail
      { buf := buf, head := head, tail := tail, more_bytes := false, n := n, c := s.c + n,
        stored := s.stored ++ bs, reqs := reqs }
    else
      { buf := buf, head := 0, tail := if s.tail = 0 then 1 else s.tail, more_bytes := true,
        n := n, c := 0, stored := s.stored ++ bs, reqs := reqs }

/-- Lines 99-130: the loop `while(more_bytes)`, fed with the outcomes of its successive `read`
calls. `none`: the outcomes given ran out before the loop ended. -/
def c_read_loop (size : Nat) : ReadState → List ReadRes → Option ReadState
  | s, [] => if s.more_bytes then none else some s
  | s, r :: rs => if s.more_bytes then c_read_loop size (c_read_body size s r) rs else some s

/-- Lines 91-134: `c_read`. The result holds the new storage, `*head_in`, `*tail_in` and the
return value `c`. -/
def c_read (size : Nat) (buf : List Byte) (head tail : Nat) (rs : List ReadRes) :
    Option ReadState :=
  c_read_loop size
    { buf := buf, head := head, tail := tail, more_bytes := true, n := 0, c := 0,
      stored := [], reqs := [] } rs

/-- Local variables of `c_write` (lines 141-143) and the trace. -/
structure WriteState where
  head : Nat
  tail : Nat
  n : Int
  sent : List Byte
  reqs : List (Nat × Nat)
deriving DecidableEq, Repr

/-- Lines 139-160: `c_write`. `w1` is what the first `write` call returns if one is made, `w2`
what the second returns if one is made. The result holds `*head_in`, `*tail_in` and the return
value `n`. -/
def c_write (size : Nat) (buf : List Byte) (head tail : Nat) (w1 w2 : Int) : WriteState :=
  if tail < head then
    -- n = write(fd, buf+tail, head-tail); tail += n;
    { head := head, tail := toU32 ((tail : Int) + w1), n := w1,
      sent := taken buf tail w1, reqs := [(tail, toU32 ((head : Int) - tail))] }
  else if head < tail then
    -- n = write(fd, buf+tail, size-tail);
    if toU32 w1 = toU32 ((size : Int) - tail) then
      -- n = write(fd, buf, head); tail = n;
      { head := head, tail := toU32 w2, n := w2,
        sent := taken buf tail w1 ++ taken buf 0 w2,
        reqs := [(tail, toU32 ((size : Int) - tail)), (0, head)] }
    else
      { head := head, tail := tail, n := w1,
        sent := taken buf tail w1, reqs := [(tail, toU32 ((size : Int) - tail))] }
  else
    { head := head, tail := tail, n := 0, sent := [], reqs := [] }

/-- Variables of `main` that live across the cycles of `while(true)` (lines 22-25, 39-41):
`r_set` and `w_set` say whether `STDIN_FILENO` is in `r_set` and `STDOUT_FILENO` in `w_set`.
`stored` and `sent` are the trace of all bytes read in and written out so far. -/
structure Loop where
  buf : List Byte
  buf_head : Nat
  buf_tail : Nat
  done_reading : Bool
  r_set : Bool
  w_set : Bool
  stored : List Byte
  sent : List Byte
deriving DecidableEq, Repr

/-- What the environment does during one cycle: which descriptors `select` reports ready, the
outcomes of the `read` calls `c_read` makes and the results of the `write` calls of `c_write`. -/
structure Cycle where
  r_ready : Bool
  w_ready : Bool
  reads : List ReadRes
  w1 : Int
  w2 : Int
deriving DecidableEq, Repr

/-- Lines 23-25, 39-50: the state in which the loop is entered; `buf` is the fresh
allocation. -/
def main_init (buf : List Byte) : Loop :=
  { buf := buf, buf_head := 0, buf_tail := 0, done_reading := false,
    r_set := true, w_set := false, stored := [], sent := [] }

/-- Line 52: `select` keeps in each set the descriptors that are ready. -/
def main_select (s : Loop) (ev : Cycle) : Loop :=
  { s with r_set := s.r_set && ev.r_ready, w_set := s.w_set && ev.w_ready }

/-- Lines 53-63: the read branch of a cycle. `none`: `c_read` did not return on the outcomes
given. -/
def main_read (size : Nat) (s : Loop) (ev : Cycle) : Option Loop :=
  if s.r_set then
    match c_read size s.buf s.buf_head s.buf_tail ev.reads with
    | none => none
    | some r =>
      -- if(c == -1) { done_reading = true; FD_ZERO(&r_set); }
      let done := if r.c = -1 then true else s.done_reading
      let rset := if r.c = -1 then false else s.r_set
      -- if(!done_reading) { r_set = r_tempset; }
      some { s with
        buf := r.buf, buf_head := r.head, buf_tail := r.tail
        done_reading := done
        r_set := if !done then true else rset
        stored := s.stored ++ r.stored }
  else
    some { s with r_set := if !s.done_reading then true else s.r_set }

/-- Lines 64-76: the write branch of a cycle and the recomputation of `w_set`. The second
component is `true` when the `break` of line 74 is taken. -/
def main_write (size : Nat) (s : Loop) (ev : Cycle) : Loop × Bool :=
  let s1 : Loop :=
    if s.w_set then
      let w := c_write size s.buf s.buf_head s.buf_tail ev.w1 ev.w2
      { s with buf_head := w.head, buf_tail := w.tail, sent := s.sent ++ w.sent }
    else s
  if !empty_buf s1.buf_head s1.buf_tail then
    ({ s1 with w_set := true }, false)
  else
    ({ s1 with w_set := false }, s1.done_reading)

/-- Lines 52-76: one cycle of `while(true)`. `none`: the cycle does not come to its end
(`select` has nothing ready to report, or `c_read` does not return). -/
def main_cycle (size : Nat) (s : Loop) (ev : Cycle) : Option (Loop × Bool) :=
  let s0 := main_select s ev
  if !s0.r_set && !s0.w_set then none
  else
    match main_read size s0 ev with
    | none => none
    | some s1 => some (main_write size s1 ev)

/-- Lines 51-77: the loop run on a list of cycles. The second component says whether the loop
was left through `break`; cycles after the `break` are not run. -/
def main_loop (size : Nat) : Loop → List Cycle → Option (Loop × Bool)
  | s, [] => some (s, false)
  | s, ev :: evs =>
    match main_cycle size s ev with
    | none => none
    | some (s1, true) => some (s1, true)
    | some (s1, false) => main_loop size s1 evs

/-- Number of unread bytes the cursors stand for: `(head - tail) mod size`. -/
def buffered (size head tail : Nat) : Nat := (head + size - tail) % size

/-- The unread bytes in the order `c_write` hands them out: `buf[tail..head)` when
`tail <= head`, else `buf[tail..size)` followed by `buf[0..head)`. -/
def unread (buf : List Byte) (head tail : Nat) : List Byte :=
  if tail ≤ head then (buf.drop tail).take (head - tail)
  else buf.drop tail ++ buf.take head

/-- Count the first `write` of `c_write` is issued with (lines 147 and 151); 0 when the
buffer is empty and no write is made. -/
def first_count (size head tail : Nat) : Nat :=
  if tail < head then toU32 ((head : Int) - tail)
  else if head < tail then toU32 ((size : Int) - tail)
  else 0

/-- State of a run that alternates `c_read` and `c_write`: storage, cursors, all bytes sent so
far and the largest number of unread bytes seen after any call. -/
structure Pipe where
  buf : List Byte
  head : Nat
  tail : Nat
  out : List Byte
  peak : Nat
deriving DecidableEq, Repr

/-- One `c_read` in which the source delivers the single byte `b` and reports would-block to
any further `read`, followed by one `c_write` whose sink accepts every byte offered (both
writes return the count they were issued with). -/
def pipe_byte (size : Nat) (p : Pipe) (b : Byte) : Option Pipe :=
  match c_read size p.buf p.head p.tail [ReadRes.data [b], ReadRes.fail Errno.EAGAIN] with
  | none => none
  | some r =>
    let w := c_write size r.buf r.head r.tail (first_count size r.head r.tail) r.head
    some { buf := r.buf, head := w.head, tail := w.tail, out := p.out ++ w.sent,
           peak := max p.peak (max (buffered size r.head r.tail) (buffered size w.head w.tail)) }

/-- The input `bs` piped through the buffer one byte per `c_read`/`c_write` pair. -/
def pipe_bytes (size : Nat) : Pipe → List Byte → Option Pipe
  | p, [] => some p
  | p, b :: bs =>
    match pipe_byte size p b with
    | none => none
    | some p1 => pipe_bytes size p1 bs

/-- Whether some pass through the loop body of `c_read` changes `tail`, for the local state
`s` and the outcomes `rs` of the `read` calls still to come. -/
def tail_moves (size : Nat) : ReadState → List ReadRes → Bool
  | _, [] => false
  | s, r :: rs =>
    if s.more_bytes then
      ((c_read_body size s r).tail != s.tail) || tail_moves size (c_read_body size s r) rs
    else false

/-- Whether some pass of the call `c_read size buf head tail` on the outcomes `rs` changes
`tail`. -/
def c_read_moves_tail (size : Nat) (buf : List Byte) (head tail : Nat) (rs : List ReadRes) :
    Bool :=
  tail_moves size
    { buf := buf, head := head, tail := tail, more_bytes := true, n := 0, c := 0,
      stored := [], reqs := [] } rs

/-- Lines 23, 32-33: the capacity `main` allocates. `parsed` is the integer `sscanf` read
with `%d` (`none` when the argument holds no number and `buf_size` keeps its initial 0); it is
stored into the `unsigned int buf_size` and then compared with 2. -/
def main_buf_size (parsed : Option Int) : Nat :=
  let buf_size : Nat :=
    match parsed with
    | none => 0
    | some v => toU32 v
  if buf_size < 2 then 2 else buf_size

/-- Whether the outcomes `rs` are ones `read` can produce for the calls `c_read` makes from the
local state `s`: every delivery that is consumed is no longer than the count requested,
`size - head`. -/
def reads_valid (size : Nat) : ReadState → List ReadRes → Bool
  | _, [] => true
  | s, r :: rs =>
    if s.more_bytes then
      (match r with
        | ReadRes.fail _ => true
        | ReadRes.data bs => decide (bs.length ≤ toU32 ((size : Int) - s.head)))
      && reads_valid size (c_read_body size s r) rs
    else true

/-- Whether the outcomes `rs` are ones `read` can produce for the call
`c_read size buf head tail`. -/
def c_read_valid (size : Nat) (buf : List Byte) (head tail : Nat) (rs : List ReadRes) : Bool :=
  reads_valid size
    { buf := buf, head := head, tail := tail, more_bytes := true, n := 0, c := 0,
      stored := [], reqs := [] } rs

/-- The cursor update of one successful read attempt of `n` bytes as the specification words
it (section 4.1, `pull`): new `head`, new `tail`, and whether another read attempt follows. -/
def pull_step_spec (C head tail n : Nat) : Nat × Nat × Bool :=
  if n < C - head then
    let new_head := (head + n) % C
    (new_head,
     if head < tail ∧ (tail ≤ new_head ∨ new_head = 0) then (new_head + 1) % C else tail,
     false)
  else
    (0, if tail = 0 then 1 else tail, true)

/-- The `size - 1` bytes of the storage that precede `head` in ring order: `buf(head..size)`
without its first byte, followed by `buf[0..head)`. -/
def behind (buf : List Byte) (head : Nat) : List Byte :=
  buf.drop (head + 1) ++ buf.take head

/-! ## Arithmetic helpers -/

theorem toU32_natCast (k : Nat) (h : k < 4294967296) : toU32 (k : Int) = k := by
  unfold toU32
  omega

theorem toU32_add (a b : Nat) (h : a + b < 4294967296) : toU32 ((a : Int) + (b : Int)) = a + b := by
  unfold toU32
  omega

theorem toU32_sub (a b : Nat) (hb : b ≤ a) (h : a < 4294967296) :
    toU32 ((a : Int) - (b : Int)) = a - b := by
  unfold toU32
  omega

theorem toU32_lt (x : Int) : toU32 x < 4294967296 := by
  unfold toU32
  omega

theorem buffered_of_le (size head tail : Nat) (ht : tail ≤ head) (hh : head < size) :
    buffered size head tail = head - tail := by
  unfold buffered
  have h : head + size - tail = (head - tail) + size := by omega
  rw [h, Nat.add_mod_right, Nat.mod_eq_of_lt (by omega)]

theorem buffered_of_lt (size head tail : Nat) (ht : head < tail) (hs : tail < size) :
    buffered size head tail = head + size - tail := by
  unfold buffered
  exact Nat.mod_eq_of_lt (by omega)

/-! ## `c_write` -/

/-- C3 (code at the failing input): capacity 4, `head = 1`, `tail = 2`, the write of the run
`[2, 4)` accepts 1 of its 2 bytes. `c_write` hands the byte at index 2 to the sink, makes no
second write and returns 1, but `tail` is still 2 and not 3: the next call sends that byte
again. -/
theorem c_write_partial_wrap_keeps_tail :
    (c_write 4 [97, 98, 99, 100] 1 2 1 0).tail = 2 ∧
    (c_write 4 [97, 98, 99, 100] 1 2 1 0).tail ≠ 2 + 1 ∧
    (c_write 4 [97, 98, 99, 100] 1 2 1 0).head = 1 ∧
    (c_write 4 [97, 98, 99, 100] 1 2 1 0).sent = [99] ∧
    (c_write 4 [97, 98, 99, 100] 1 2 1 0).reqs = [(2, 2)] ∧
    (c_write 4 [97, 98, 99, 100] 1 2 1 0).n = 1 ∧
    (c_write 4 [97, 98, 99, 100] 1 2 2 1).sent = [99, 100, 97] := by
  decide

/-- C4: with `tail < head < size`, when the write accepts `n <= head - tail` bytes, `c_write`
issues one write, of `buf[tail..head)`; `tail` becomes `tail + n`, `head` stays; the bytes
sent are the first `n` unread bytes and the bytes still unread are the rest, in order. -/
theorem c_write_contiguous (size : Nat) (buf : List Byte) (head tail n : Nat) (w2 : Int)
    (hsize : size < 4294967296) (ht : tail < head) (hh : head < size) (hn : n ≤ head - tail) :
    (c_write size buf head tail n w2).reqs = [(tail, head - tail)] ∧
    (c_write size buf head tail n w2).tail = tail + n ∧
    (c_write size buf head tail n w2).head = head ∧
    (c_write size buf head tail n w2).n = n ∧
    (c_write size buf head tail n w2).sent = (unread buf head tail).take n ∧
    unread buf head (c_write size buf head tail n w2).tail = (unread buf head tail).drop n := by
  have e1 : toU32 ((head : Int) - (tail : Int)) = head - tail :=
    toU32_sub head tail (by omega) (by omega)
  have e2 : toU32 ((tail : Int) + (n : Int)) = tail + n := toU32_add tail n (by omega)
  have e3 : tail ≤ head := by omega
  have e4 : tail + n ≤ head := by omega
  have e5 : head - (tail + n) = head - tail - n := by omega
  simp only [c_write, if_pos ht, e1, e2, taken, unread, if_pos e3, if_pos e4, Int.toNat_ofNat,
    List.take_take, List.drop_take, List.drop_drop, e5, Nat.min_eq_left hn, and_self, true_and]

/-- Witness for C4 and the scenario of the claim: capacity 4, "AB" stored by one 2-byte read,
the sink taking 1 byte per call: "A", then "B", then the buffer is empty. -/
theorem c_write_contiguous_witness :
    ((c_read 4 [0, 0, 0, 0] 0 0 [ReadRes.data [65, 66]]).map
        (fun r => (r.buf, r.head, r.tail)) = some ([65, 66, 0, 0], 2, 0)) ∧
    ((c_write 4 [65, 66, 0, 0] 2 0 (1 : Nat) 0).reqs = [(0, 2 - 0)] ∧
     (c_write 4 [65, 66, 0, 0] 2 0 (1 : Nat) 0).tail = 0 + 1 ∧
     (c_write 4 [65, 66, 0, 0] 2 0 (1 : Nat) 0).head = 2 ∧
     (c_write 4 [65, 66, 0, 0] 2 0 (1 : Nat) 0).n = (1 : Nat) ∧
     (c_write 4 [65, 66, 0, 0] 2 0 (1 : Nat) 0).sent = (unread [65, 66, 0, 0] 2 0).take 1 ∧
     unread [65, 66, 0, 0] 2 (c_write 4 [65, 66, 0, 0] 2 0 (1 : Nat) 0).tail
       = (unread [65, 66, 0, 0] 2 0).drop 1) ∧
    (c_write 4 [65, 66, 0, 0] 2 0 1 0).sent = [65] ∧
    (c_write 4 [65, 66, 0, 0] 2 1 1 0).sent = [66] ∧
    empty_buf (c_write 4 [65, 66, 0, 0] 2 1 1 0).head (c_write 4 [65, 66, 0, 0] 2 1 1 0).tail
      = true :=
  ⟨by decide,
   c_write_contiguous 4 [65, 66, 0, 0] 2 0 1 0 (by decide) (by decide) (by decide) (by decide),
   by decide, by decide, by decide⟩

/-- C5: with `head < tail < size`, when the first write accepts the whole run `[tail, size)`
and the second accepts `m <= head` bytes of `[0, head)`, `c_write` sets `tail` to `m`, leaves
`head`, and `empty_buf` then holds exactly when `m = head`, that is when no byte is unread. -/
theorem c_write_wrap_full (size : Nat) (buf : List Byte) (head tail m : Nat)
    (hsize : size < 4294967296) (hlen : buf.length = size) (hh : head < tail) (ht : tail < size)
    (hm : m ≤ head) :
    (c_write size buf head tail ((size - tail : Nat) : Int) m).tail = m ∧
    (c_write size buf head tail ((size - tail : Nat) : Int) m).head = head ∧
    (c_write size buf head tail ((size - tail : Nat) : Int) m).reqs
      = [(tail, size - tail), (0, head)] ∧
    (empty_buf (c_write size buf head tail ((size - tail : Nat) : Int) m).head
        (c_write size buf head tail ((size - tail : Nat) : Int) m).tail = true ↔ m = head) ∧
    (m = head ↔ buffered size head
        (c_write size buf head tail ((size - tail : Nat) : Int) m).tail = 0) ∧
    (m = head ↔ unread buf head
        (c_write size buf head tail ((size - tail : Nat) : Int) m).tail = []) := by
  have e0 : ¬ tail < head := by omega
  have e1 : toU32 ((size : Int) - (tail : Int)) = size - tail :=
    toU32_sub size tail (by omega) hsize
  have e2 : toU32 ((size - tail : Nat) : Int) = size - tail := toU32_natCast _ (by omega)
  have e3 : toU32 ((m : Nat) : Int) = m := toU32_natCast _ (by omega)
  have hb : buffered size head m = head - m := buffered_of_le size head m hm (by omega)
  simp only [c_write, if_neg e0, if_pos hh, e1, e2, e3, if_true, empty_buf, hb, unread,
    if_pos hm, true_and, beq_iff_eq]
  refine ⟨by omega, by omega, ?_⟩
  constructor
  · intro h
    subst h
    simp
  · intro h
    have hl := congrArg List.length h
    simp only [List.length_take, List.length_drop, List.length_nil, hlen] at hl
    omega

/-- Witness for C5: capacity 4, `head = 1`, `tail = 2`; the first write takes both bytes of
`[2, 4)`, the second the one byte of `[0, 1)`. -/
theorem c_write_wrap_full_witness :
    (c_write 4 [97, 98, 99, 100] 1 2 ((4 - 2 : Nat) : Int) (1 : Nat)).tail = 1 ∧
    (c_write 4 [97, 98, 99, 100] 1 2 ((4 - 2 : Nat) : Int) (1 : Nat)).head = 1 ∧
    (c_write 4 [97, 98, 99, 100] 1 2 ((4 - 2 : Nat) : Int) (1 : Nat)).reqs
      = [(2, 4 - 2), (0, 1)] ∧
    (empty_buf (c_write 4 [97, 98, 99, 100] 1 2 ((4 - 2 : Nat) : Int) (1 : Nat)).head
        (c_write 4 [97, 98, 99, 100] 1 2 ((4 - 2 : Nat) : Int) (1 : Nat)).tail = true
      ↔ 1 = 1) ∧
    (1 = 1 ↔ buffered 4 1
        (c_write 4 [97, 98, 99, 100] 1 2 ((4 - 2 : Nat) : Int) (1 : Nat)).tail = 0) ∧
    (1 = 1 ↔ unread [97, 98, 99, 100] 1
        (c_write 4 [97, 98, 99, 100] 1 2 ((4 - 2 : Nat) : Int) (1 : Nat)).tail = []) :=
  c_write_wrap_full 4 [97, 98, 99, 100] 1 2 1 (by decide) (by decide) (by decide) (by decide)
    (by decide)

/-- C7: in a non-empty state with both cursors below `size`, a `c_write` whose write returns 0
leaves `head` and `tail` as they were and sends nothing; the loop (lines 67-68) then puts
stdout back into `w_set` for the next `select` and does not leave. -/
theorem c_write_zero_rearms (size : Nat) (s : Loop) (ev : Cycle)
    (hsize : size < 4294967296) (ht : s.buf_tail < size)
    (hne : empty_buf s.buf_head s.buf_tail = false) (hw : ev.w1 = 0) :
    (c_write size s.buf s.buf_head s.buf_tail ev.w1 ev.w2).head = s.buf_head ∧
    (c_write size s.buf s.buf_head s.buf_tail ev.w1 ev.w2).tail = s.buf_tail ∧
    (c_write size s.buf s.buf_head s.buf_tail ev.w1 ev.w2).sent = [] ∧
    (c_write size s.buf s.buf_head s.buf_tail ev.w1 ev.w2).reqs.length = 1 ∧
    (s.w_set = true → main_write size s ev = ({ s with w_set := true }, false)) := by
  have hne2 : s.buf_head ≠ s.buf_tail := by
    simpa [empty_buf] using hne
  have e1 : toU32 ((size : Int) - (s.buf_tail : Int)) = size - s.buf_tail :=
    toU32_sub size s.buf_tail (by omega) hsize
  have e2 : toU32 (s.buf_tail : Int) = s.buf_tail := toU32_natCast _ (by omega)
  have e3 : toU32 0 = 0 := by decide
  have e4 : ¬ (0 = size - s.buf_tail) := by omega
  have key : c_write size s.buf s.buf_head s.buf_tail ev.w1 ev.w2 =
      { head := s.buf_head, tail := s.buf_tail, n := 0, sent := [],
        reqs := (c_write size s.buf s.buf_head s.buf_tail ev.w1 ev.w2).reqs } ∧
      (c_write size s.buf s.buf_head s.buf_tail ev.w1 ev.w2).reqs.length = 1 := by
    rw [hw]
    by_cases h1 : s.buf_tail < s.buf_head
    · simp [c_write, if_pos h1, e2, taken]
    · have h2 : s.buf_head < s.buf_tail := by omega
      simp [c_write, if_neg h1, if_pos h2, e1, e3, if_neg e4, taken]
  obtain ⟨k1, k2⟩ := key
  refine ⟨by rw [k1], by rw [k1], by rw [k1], k2, ?_⟩
  intro hws
  unfold main_write
  rw [k1]
  simp [hws, hne]

/-- Witness for C7: capacity 4, one unread byte at index 0, stdout in `w_set`. -/
theorem c_write_zero_rearms_witness :
    (c_write 4 [97, 0, 0, 0] 1 0 0 0).head = 1 ∧
    (c_write 4 [97, 0, 0, 0] 1 0 0 0).tail = 0 ∧
    (c_write 4 [97, 0, 0, 0] 1 0 0 0).sent = [] ∧
    (c_write 4 [97, 0, 0, 0] 1 0 0 0).reqs.length = 1 ∧
    (true = true →
      main_write 4
        { buf := [97, 0, 0, 0], buf_head := 1, buf_tail := 0, done_reading := false,
          r_set := true, w_set := true, stored := [97], sent := [] }
        { r_ready := false, w_ready := true, reads := [], w1 := 0, w2 := 0 }
      = ({ buf := [97, 0, 0, 0], buf_head := 1, buf_tail := 0, done_reading := false,
           r_set := true, w_set := true, stored := [97], sent := [] }, false)) :=
  c_write_zero_rearms 4
    { buf := [97, 0, 0, 0], buf_head := 1, buf_tail := 0, done_reading := false,
      r_set := true, w_set := true, stored := [97], sent := [] }
    { r_ready := false, w_ready := true, reads := [], w1 := 0, w2 := 0 }
    (by decide) (by decide) (by decide) rfl

/-- C8 (code at the failing input): capacity 4, `head = 1`, `tail = 0`, one unread byte; the
write returns -1 (would-block). Line 148 adds the -1 to `tail`, which wraps to 4294967295, a
value outside the storage; with `head = 2`, `tail = 1` the same result moves `tail` back to 0.
Only the wrapped branch (`head < tail`) leaves `tail` alone. -/
theorem c_write_minus_one_moves_tail :
    (c_write 4 [97, 0, 0, 0] 1 0 (-1) 0).tail = 4294967295 ∧
    ¬ ((c_write 4 [97, 0, 0, 0] 1 0 (-1) 0).tail < 4) ∧
    (c_write 4 [97, 0, 0, 0] 1 0 (-1) 0).head = 1 ∧
    (c_write 4 [97, 0, 0, 0] 1 0 (-1) 0).sent = [] ∧
    (c_write 4 [97, 98, 0, 0] 2 1 (-1) 0).tail = 0 ∧
    (c_write 4 [97, 98, 99, 100] 1 2 (-1) 0).tail = 2 := by
  decide

/-! ## One byte at a time -/

theorem taken_store (buf : List Byte) (off : Nat) (bs : List Byte)
    (h : off ≤ buf.length) : taken (store buf off bs) off (bs.length : Int) = bs := by
  unfold taken store
  rw [List.append_assoc, List.drop_left' (by simp [h]), Int.toNat_ofNat, List.take_left' rfl]

theorem length_store (buf : List Byte) (off : Nat) (bs : List Byte)
    (h : off + bs.length ≤ buf.length) : (store buf off bs).length = buf.length := by
  unfold store
  simp only [List.length_append, List.length_take, List.length_drop]
  omega

theorem buffered_self (size k : Nat) (h : 0 < size) : buffered size k k = 0 := by
  unfold buffered
  have : k + size - k = size := by omega
  rw [this, Nat.mod_self]

theorem c_read_one_short (size : Nat) (buf : List Byte) (h : Nat) (b : Byte)
    (hsize : size < 4294967296) (hh : h + 1 < size) (rs : List ReadRes) :
    c_read size buf h h (ReadRes.data [b] :: rs) =
      some { buf := store buf h [b], head := h + 1, tail := h, more_bytes := false, n := 1,
             c := 1, stored := [b], reqs := [(h, size - h)] } := by
  have e1 : toU32 ((size : Int) - (h : Int)) = size - h := toU32_sub size h (by omega) hsize
  have e2 : toU32 ((h : Int) + 1) = h + 1 := toU32_add h 1 (by omega)
  have e3 : toU32 1 = 1 := by decide
  have e4 : ¬ (1 = size - h) := by omega
  have e5 : (h + 1) % size = h + 1 := Nat.mod_eq_of_lt hh
  cases rs <;>
    simp [c_read, c_read_loop, c_read_body, e1, e2, e3, e4, e5]

theorem c_read_one_full (size : Nat) (buf : List Byte) (h : Nat) (b : Byte)
    (h2 : 2 ≤ size) (hsize : size < 4294967296) (hh : h + 1 = size) :
    c_read size buf h h [ReadRes.data [b], ReadRes.fail Errno.EAGAIN] =
      some { buf := store buf h [b], head := 0, tail := h, more_bytes := false, n := -1,
             c := 0, stored := [b], reqs := [(h, 1), (0, size)] } := by
  have e1 : toU32 ((size : Int) - (h : Int)) = 1 := by
    rw [toU32_sub size h (by omega) hsize]
    omega
  have e3 : toU32 1 = 1 := by decide
  have e4 : h ≠ 0 := by omega
  have e5 : toU32 (size : Int) = size := toU32_natCast size hsize
  simp [c_read, c_read_loop, c_read_body, e1, e3, e4, e5]

theorem pipe_byte_spec (size : Nat) (p : Pipe) (b : Byte) (h2 : 2 ≤ size)
    (hsize : size < 4294967296) (hlen : p.buf.length = size) (hht : p.head = p.tail)
    (hh : p.head < size) :
    ∃ q, pipe_byte size p b = some q ∧ q.buf.length = size ∧ q.head = q.tail ∧ q.head < size ∧
      q.out = p.out ++ [b] ∧ q.peak = max p.peak 1 := by
  have hl : (store p.buf p.head [b]).length = size := by
    rw [length_store _ _ _ (by simp; omega), hlen]
  have ht : taken (store p.buf p.head [b]) p.head 1 = [b] :=
    taken_store p.buf p.head [b] (by omega)
  have e3 : toU32 1 = 1 := by decide
  by_cases hc : p.head + 1 < size
  · have hr := c_read_one_short size p.buf p.head b hsize hc [ReadRes.fail Errno.EAGAIN]
    have e1 : toU32 ((p.head : Int) + 1 - (p.head : Int)) = 1 := by
      unfold toU32
      omega
    have e2 : toU32 ((p.head : Int) + 1) = p.head + 1 := toU32_add p.head 1 (by omega)
    have b1 : buffered size (p.head + 1) p.head = 1 := by
      rw [buffered_of_le size (p.head + 1) p.head (by omega) hc]
      omega
    have b0 : buffered size (p.head + 1) (p.head + 1) = 0 := buffered_self size _ (by omega)
    unfold pipe_byte
    rw [← hht, hr]
    refine ⟨_, rfl, ?_⟩
    simp [c_write, first_count, e1, e2, e3, hl, ht, hc, b1, b0]
  · have hf : p.head + 1 = size := by omega
    have hr := c_read_one_full size p.buf p.head b h2 hsize hf
    have e1 : toU32 ((size : Int) - (p.head : Int)) = 1 := by
      rw [toU32_sub size p.head (by omega) hsize]
      omega
    have e0 : toU32 0 = 0 := by decide
    have hpos : 0 < p.head := by omega
    have b1 : buffered size 0 p.head = 1 := by
      rw [buffered_of_lt size 0 p.head hpos hh]
      omega
    have b0 : buffered size 0 0 = 0 := buffered_self size _ (by omega)
    unfold pipe_byte
    rw [← hht, hr]
    refine ⟨_, rfl, ?_⟩
    simp [c_write, first_count, e1, e0, e3, hl, ht, hpos, b1, b0]
    exact ⟨by omega, by simp [taken]⟩

theorem pipe_bytes_spec (size : Nat) (h2 : 2 ≤ size) (hsize : size < 4294967296)
    (input : List Byte) :
    ∀ p : Pipe, p.buf.length = size → p.head = p.tail → p.head < size →
      ∃ q, pipe_bytes size p input = some q ∧ q.out = p.out ++ input ∧
        q.peak = (if input = [] then p.peak else max p.peak 1) := by
  induction input with
  | nil =>
    intro p _ _ _
    exact ⟨p, rfl, by simp, by simp⟩
  | cons b bs ih =>
    intro p hlen hht hh
    obtain ⟨q, hq, hql, hqht, hqh, hqo, hqp⟩ := pipe_byte_spec size p b h2 hsize hlen hht hh
    obtain ⟨q2, hq2, ho2, hp2⟩ := ih q hql hqht hqh
    refine ⟨q2, ?_, ?_, ?_⟩
    · simp only [pipe_bytes, hq, hq2]
    · rw [ho2, hqo, List.append_assoc, List.singleton_append]
    · rw [hp2, hqp]
      by_cases hb : bs = []
      · simp [hb]
      · simp [hb, max_assoc]

/-- C6: for every capacity `size >= 2` and every input, starting from `head = tail = 0`, when
each `c_read` gets one byte (a further `read` in the call reporting would-block) and is
followed by a `c_write` whose sink accepts all that is offered, the run completes, the bytes
sent are the input in order, and after no call more than one byte is unread. -/
theorem one_byte_at_a_time (size : Nat) (buf input : List Byte) (h2 : 2 ≤ size)
    (hsize : size < 4294967296) (hlen : buf.length = size) :
    ∃ q, pipe_bytes size { buf := buf, head := 0, tail := 0, out := [], peak := 0 } input
        = some q ∧ q.out = input ∧ q.peak ≤ 1 := by
  obtain ⟨q, hq, ho, hp⟩ :=
    pipe_bytes_spec size h2 hsize input
      { buf := buf, head := 0, tail := 0, out := [], peak := 0 } hlen rfl (by show 0 < size; omega)
  refine ⟨q, hq, by simpa using ho, ?_⟩
  rw [hp]
  split <;> simp

/-- Witness for C6: capacity 2 and the 5 bytes "hello". -/
theorem one_byte_at_a_time_witness :
    ∃ q, pipe_bytes 2 { buf := [0, 0], head := 0, tail := 0, out := [], peak := 0 }
        [104, 101, 108, 108, 111] = some q ∧ q.out = [104, 101, 108, 108, 111] ∧ q.peak ≤ 1 :=
  one_byte_at_a_time 2 [0, 0] [104, 101, 108, 108, 111] (by decide) (by decide) (by decide)

/-! ## `c_read`: the overflow correction -/

theorem take_store (buf : List Byte) (off : Nat) (bs : List Byte) (h : off ≤ buf.length) :
    (store buf off bs).take (off + bs.length) = buf.take off ++ bs := by
  unfold store
  rw [List.take_left' (by simp [h])]

theorem drop_store (buf : List Byte) (off : Nat) (bs : List Byte) (k : Nat)
    (h : off ≤ buf.length) (hk : off + bs.length ≤ k) :
    (store buf off bs).drop k = buf.drop k := by
  unfold store
  have hl : (List.take off buf ++ bs).length = off + bs.length := by simp [h]
  rw [List.drop_append_eq_append_drop, hl, List.drop_of_length_le (by omega), List.nil_append,
    List.drop_drop]
  congr 1
  omega

theorem length_unread (size : Nat) (buf : List Byte) (head tail : Nat)
    (hlen : buf.length = size) (hh : head < size) (ht : tail < size) :
    (unread buf head tail).length = buffered size head tail := by
  unfold unread
  by_cases h : tail ≤ head
  · rw [if_pos h, buffered_of_le size head tail h hh]
    simp only [List.length_take, List.length_drop, hlen]
    omega
  · rw [if_neg h, buffered_of_lt size head tail (by omega) ht]
    simp only [List.length_append, List.length_take, List.length_drop, hlen]
    omega

theorem c_read_body_short (size : Nat) (s : ReadState) (bs : List Byte)
    (hsize : size < 4294967296) (hn1 : 1 ≤ bs.length) (hn2 : s.head + bs.length < size) :
    c_read_body size s (ReadRes.data bs) =
      { buf := store s.buf s.head bs
        head := s.head + bs.length
        tail := if s.head < s.tail ∧ s.tail ≤ s.head + bs.length
                then (s.head + bs.length + 1) % size else s.tail
        more_bytes := false
        n := (bs.length : Int)
        c := s.c + (bs.length : Int)
        stored := s.stored ++ bs
        reqs := s.reqs ++ [(s.head, size - s.head)] } := by
  have e1 : toU32 ((size : Int) - (s.head : Int)) = size - s.head :=
    toU32_sub size s.head (by omega) hsize
  have e2 : toU32 ((bs.length : Nat) : Int) = bs.length := toU32_natCast _ (by omega)
  have e3 : toU32 ((s.head : Int) + (bs.length : Int)) = s.head + bs.length :=
    toU32_add _ _ (by omega)
  have e4 : (s.head + bs.length) % size = s.head + bs.length := Nat.mod_eq_of_lt hn2
  have e5 : toU32 (((s.head + bs.length : Nat) : Int) + 1) = s.head + bs.length + 1 :=
    toU32_add _ 1 (by omega)
  have e6 : ¬ ((bs.length : Int) = 0) := by omega
  have e7 : bs.length ≠ size - s.head := by omega
  have e8 : ¬ (s.head + bs.length = 0) := by omega
  unfold c_read_body
  simp only [e1, e2, e3, e4, e5, e6, e7, e8, if_false, ne_eq, not_false_eq_true, if_true,
    gt_iff_lt, ge_iff_le, Bool.and_eq_true, Bool.or_eq_true, decide_eq_true_eq, beq_iff_eq,
    or_false]

theorem c_read_body_full (size : Nat) (s : ReadState) (bs : List Byte)
    (hsize : size < 4294967296) (hh : s.head < size) (hn : s.head + bs.length = size) :
    c_read_body size s (ReadRes.data bs) =
      { buf := store s.buf s.head bs
        head := 0
        tail := if s.tail = 0 then 1 else s.tail
        more_bytes := true
        n := (bs.length : Int)
        c := 0
        stored := s.stored ++ bs
        reqs := s.reqs ++ [(s.head, size - s.head)] } := by
  have e1 : toU32 ((size : Int) - (s.head : Int)) = size - s.head :=
    toU32_sub size s.head (by omega) hsize
  have e2 : toU32 ((bs.length : Nat) : Int) = size - s.head := by
    rw [toU32_natCast _ (by omega)]
    omega
  have e6 : ¬ ((bs.length : Int) = 0) := by omega
  unfold c_read_body
  simp only [e1, e2, e6, if_false, ne_eq, not_true_eq_false]

/-- C9 (counterexample): capacity 8, `head = 2`, `tail = 5`, five unread bytes "fghij"; one
`c_read` whose single read delivers the four bytes "klmn". The call moves `tail` from 5 to 7,
but the unread bytes afterwards are "hijklmn": seven, not `5 + 4 - 1`, and both "f" and "g"
are gone. -/
theorem c_read_loses_two :
    unread [105, 106, 99, 100, 101, 102, 103, 104] 2 5 = [102, 103, 104, 105, 106] ∧
    buffered 8 2 5 = 5 ∧
    (c_read 8 [105, 106, 99, 100, 101, 102, 103, 104] 2 5
        [ReadRes.data [107, 108, 109, 110]]).map
      (fun r => (r.head, r.tail, r.stored.length, buffered 8 r.head r.tail,
        unread r.buf r.head r.tail))
      = some (6, 7, 4, 7, [104, 105, 106, 107, 108, 109, 110]) ∧
    ¬ (7 = 5 + 4 - 1) := by
  decide

/-- One pass of the loop of `c_read`: in a state with `head < size`, `tail < size`,
`2 <= size`, when a read that delivers `n >= 1` bytes moves `tail`, the buffer afterwards
holds `size - 1` unread bytes; they are the unread bytes from before followed by the new
bytes, in order, without the first `lost = before + n - (size - 1)` of them; `lost >= 1`, and
`lost = 1` exactly when the new `head` equals the old `tail`. -/
theorem c_read_body_tail_moved (size : Nat) (s : ReadState) (bs : List Byte)
    (h2 : 2 ≤ size) (hsize : size < 4294967296) (hlen : s.buf.length = size)
    (hh : s.head < size) (ht : s.tail < size)
    (hn1 : 1 ≤ bs.length) (hn2 : bs.length ≤ size - s.head)
    (hmv : (c_read_body size s (ReadRes.data bs)).tail ≠ s.tail) :
    buffered size (c_read_body size s (ReadRes.data bs)).head
        (c_read_body size s (ReadRes.data bs)).tail = size - 1 ∧
    1 ≤ buffered size s.head s.tail + bs.length - (size - 1) ∧
    unread (c_read_body size s (ReadRes.data bs)).buf
        (c_read_body size s (ReadRes.data bs)).head
        (c_read_body size s (ReadRes.data bs)).tail
      = (unread s.buf s.head s.tail ++ bs).drop
          (buffered size s.head s.tail + bs.length - (size - 1)) ∧
    (buffered size s.head s.tail + bs.length - (size - 1) = 1 ↔
      (c_read_body size s (ReadRes.data bs)).head = s.tail) := by
  by_cases hfull : s.head + bs.length = size
  · -- the read fills `[head, size)`: `tail` moves only from 0 to 1
    rw [c_read_body_full size s bs hsize hh hfull] at hmv ⊢
    simp only at hmv ⊢
    have ht0 : s.tail = 0 := by
      by_contra hne
      rw [if_neg hne] at hmv
      exact hmv rfl
    rw [if_pos ht0, ht0]
    have hb : buffered size s.head 0 = s.head :=
      buffered_of_le size s.head 0 (Nat.zero_le _) hh
    have hb1 : buffered size 0 1 = size - 1 := by
      rw [buffered_of_lt size 0 1 (by omega) (by omega)]
      omega
    have hl : s.head + bs.length - (size - 1) = 1 := by omega
    rw [hb, hb1, hl]
    refine ⟨rfl, le_refl _, ?_, by simp⟩
    have hst : store s.buf s.head bs = List.take s.head s.buf ++ bs := by
      have := take_store s.buf s.head bs (by omega)
      rw [← this, List.take_of_length_le]
      rw [length_store _ _ _ (by omega)]
      omega
    simp [unread, hst]
  · -- a short read: `tail` was ahead of `head` and is reached or passed
    have hshort : s.head + bs.length < size := by omega
    rw [c_read_body_short size s bs hsize hn1 hshort] at hmv ⊢
    simp only at hmv ⊢
    have hc : s.head < s.tail ∧ s.tail ≤ s.head + bs.length := by
      by_contra hne
      rw [if_neg hne] at hmv
      exact hmv rfl
    rw [if_pos hc]
    obtain ⟨hc1, hc2⟩ := hc
    have hb : buffered size s.head s.tail = s.head + size - s.tail :=
      buffered_of_lt size s.head s.tail hc1 ht
    have hl : s.head + size - s.tail + bs.length - (size - 1) = s.head + bs.length + 1 - s.tail := by
      omega
    rw [hb, hl]
    have hun : unread s.buf s.head s.tail = List.drop s.tail s.buf ++ List.take s.head s.buf := by
      unfold unread
      rw [if_neg (by omega)]
    have hdl : (List.drop s.tail s.buf).length = size - s.tail := by
      rw [List.length_drop, hlen]
    have htk : List.take (s.head + bs.length) (store s.buf s.head bs)
        = List.take s.head s.buf ++ bs := take_store s.buf s.head bs (by omega)
    by_cases hw : s.head + bs.length + 1 < size
    · rw [Nat.mod_eq_of_lt hw]
      have hb2 : buffered size (s.head + bs.length) (s.head + bs.length + 1) = size - 1 := by
        rw [buffered_of_lt size _ _ (by omega) hw]
        omega
      refine ⟨hb2, by omega, ?_, by omega⟩
      have hdr : List.drop (s.head + bs.length + 1) (store s.buf s.head bs)
          = List.drop (s.head + bs.length + 1) s.buf :=
        drop_store s.buf s.head bs _ (by omega) (by omega)
      unfold unread
      rw [if_neg (by omega), hdr, htk]
      rw [if_neg (by omega), List.append_assoc,
        List.drop_append_of_le_length (by rw [hdl]; omega), List.drop_drop]
      congr 2
      omega
    · have hw2 : s.head + bs.length + 1 = size := by omega
      rw [hw2, Nat.mod_self]
      have hb2 : buffered size (s.head + bs.length) 0 = size - 1 := by
        rw [buffered_of_le size _ 0 (Nat.zero_le _) hshort]
        omega
      refine ⟨hb2, by omega, ?_, by omega⟩
      unfold unread
      rw [if_pos (Nat.zero_le _), List.drop_zero, Nat.sub_zero, htk]
      rw [if_neg (by omega), List.append_assoc,
        List.drop_append_eq_append_drop, List.drop_of_length_le (le_of_eq hdl), hdl]
      have : size - s.tail - (size - s.tail) = 0 := by omega
      rw [this, List.drop_zero, List.nil_append]

/-- The single pass at capacity 8, `head = 2`, `tail = 5` with a read of 4 bytes: two bytes
are lost. -/
theorem c_read_body_tail_moved_witness :
    buffered 8
        (c_read_body 8
          { buf := [105, 106, 99, 100, 101, 102, 103, 104], head := 2, tail := 5,
            more_bytes := true, n := 0, c := 0, stored := [], reqs := [] }
          (ReadRes.data [107, 108, 109, 110])).head
        (c_read_body 8
          { buf := [105, 106, 99, 100, 101, 102, 103, 104], head := 2, tail := 5,
            more_bytes := true, n := 0, c := 0, stored := [], reqs := [] }
          (ReadRes.data [107, 108, 109, 110])).tail = 8 - 1 ∧
    1 ≤ buffered 8 2 5 + 4 - (8 - 1) ∧
    unread
        (c_read_body 8
          { buf := [105, 106, 99, 100, 101, 102, 103, 104], head := 2, tail := 5,
            more_bytes := true, n := 0, c := 0, stored := [], reqs := [] }
          (ReadRes.data [107, 108, 109, 110])).buf
        (c_read_body 8
          { buf := [105, 106, 99, 100, 101, 102, 103, 104], head := 2, tail := 5,
            more_bytes := true, n := 0, c := 0, stored := [], reqs := [] }
          (ReadRes.data [107, 108, 109, 110])).head
        (c_read_body 8
          { buf := [105, 106, 99, 100, 101, 102, 103, 104], head := 2, tail := 5,
            more_bytes := true, n := 0, c := 0, stored := [], reqs := [] }
          (ReadRes.data [107, 108, 109, 110])).tail
      = (unread [105, 106, 99, 100, 101, 102, 103, 104] 2 5 ++ [107, 108, 109, 110]).drop
          (buffered 8 2 5 + 4 - (8 - 1)) ∧
    (buffered 8 2 5 + 4 - (8 - 1) = 1 ↔
      (c_read_body 8
          { buf := [105, 106, 99, 100, 101, 102, 103, 104], head := 2, tail := 5,
            more_bytes := true, n := 0, c := 0, stored := [], reqs := [] }
          (ReadRes.data [107, 108, 109, 110])).head = 5) :=
  c_read_body_tail_moved 8
    { buf := [105, 106, 99, 100, 101, 102, 103, 104], head := 2, tail := 5,
      more_bytes := true, n := 0, c := 0, stored := [], reqs := [] }
    [107, 108, 109, 110] (by decide) (by decide) (by decide) (by decide) (by decide)
    (by decide) (by decide) (by decide)

/-! ## Runs of the loop -/

/-- C1 (code at two failing inputs), capacity 4, storage initially zero.
Run A: read "abc"; write 2; read "d" (fills `[3, 4)`), then would-block; write of the run
`[2, 4)` takes 1 byte; write takes 2 and 0; end of stream. No pass of `c_read` changes `tail`,
the loop leaves through `break`, and the sink has received "abccd" for the stored "abcd".
Run B: read "abc"; write 2; read "d", then "efgh" (fills `[0, 4)` while `tail = 2`), then
would-block; write takes 2 and 0; end of stream. No pass of `c_read` changes `tail`, the loop
leaves through `break`, and the sink has received "abgh" for the stored "abcdefgh". -/
theorem prefix_fails_without_tail_move :
    (c_read_moves_tail 4 [0, 0, 0, 0] 0 0 [ReadRes.data [97, 98, 99]] = false ∧
     c_read_moves_tail 4 [97, 98, 99, 0] 3 2
        [ReadRes.data [100], ReadRes.fail Errno.EAGAIN] = false ∧
     c_read_moves_tail 4 [97, 98, 99, 100] 0 0 [ReadRes.data []] = false ∧
     (main_loop 4 (main_init [0, 0, 0, 0])
        [ { r_ready := true, w_ready := false, reads := [ReadRes.data [97, 98, 99]],
            w1 := 0, w2 := 0 },
          { r_ready := false, w_ready := true, reads := [], w1 := 2, w2 := 0 },
          { r_ready := true, w_ready := false,
            reads := [ReadRes.data [100], ReadRes.fail Errno.EAGAIN], w1 := 0, w2 := 0 },
          { r_ready := false, w_ready := true, reads := [], w1 := 1, w2 := 0 } ]).map
        (fun x => (x.1.buf, x.1.buf_head, x.1.buf_tail, x.1.stored, x.1.sent, x.2))
       = some ([97, 98, 99, 100], 0, 2, [97, 98, 99, 100], [97, 98, 99], false) ∧
     (main_loop 4 (main_init [0, 0, 0, 0])
        [ { r_ready := true, w_ready := false, reads := [ReadRes.data [97, 98, 99]],
            w1 := 0, w2 := 0 },
          { r_ready := false, w_ready := true, reads := [], w1 := 2, w2 := 0 },
          { r_ready := true, w_ready := false,
            reads := [ReadRes.data [100], ReadRes.fail Errno.EAGAIN], w1 := 0, w2 := 0 },
          { r_ready := false, w_ready := true, reads := [], w1 := 1, w2 := 0 },
          { r_ready := false, w_ready := true, reads := [], w1 := 2, w2 := 0 },
          { r_ready := true, w_ready := false, reads := [ReadRes.data []],
            w1 := 0, w2 := 0 } ]).map
        (fun x => (x.1.buf_head, x.1.buf_tail, x.1.stored, x.1.sent, x.2))
       = some (0, 0, [97, 98, 99, 100], [97, 98, 99, 99, 100], true) ∧
     ¬ ([97, 98, 99, 99, 100] <+: ([97, 98, 99, 100] : List Byte))) ∧
    (c_read_moves_tail 4 [97, 98, 99, 0] 3 2
        [ReadRes.data [100], ReadRes.data [101, 102, 103, 104],
         ReadRes.fail Errno.EAGAIN] = false ∧
     c_read_moves_tail 4 [101, 102, 103, 104] 0 0 [ReadRes.data []] = false ∧
     (main_loop 4 (main_init [0, 0, 0, 0])
        [ { r_ready := true, w_ready := false, reads := [ReadRes.data [97, 98, 99]],
            w1 := 0, w2 := 0 },
          { r_ready := false, w_ready := true, reads := [], w1 := 2, w2 := 0 },
          { r_ready := true, w_ready := false,
            reads := [ReadRes.data [100], ReadRes.data [101, 102, 103, 104],
                      ReadRes.fail Errno.EAGAIN], w1 := 0, w2 := 0 } ]).map
        (fun x => (x.1.buf, x.1.buf_head, x.1.buf_tail, x.1.stored, x.1.sent, x.2))
       = some ([101, 102, 103, 104], 0, 2, [97, 98, 99, 100, 101, 102, 103, 104], [97, 98],
               false) ∧
     (main_loop 4 (main_init [0, 0, 0, 0])
        [ { r_ready := true, w_ready := false, reads := [ReadRes.data [97, 98, 99]],
            w1 := 0, w2 := 0 },
          { r_ready := false, w_ready := true, reads := [], w1 := 2, w2 := 0 },
          { r_ready := true, w_ready := false,
            reads := [ReadRes.data [100], ReadRes.data [101, 102, 103, 104],
                      ReadRes.fail Errno.EAGAIN], w1 := 0, w2 := 0 },
          { r_ready := false, w_ready := true, reads := [], w1 := 2, w2 := 0 },
          { r_ready := true, w_ready := false, reads := [ReadRes.data []],
            w1 := 0, w2 := 0 } ]).map
        (fun x => (x.1.buf_head, x.1.buf_tail, x.1.stored, x.1.sent, x.2))
       = some (0, 0, [97, 98, 99, 100, 101, 102, 103, 104], [97, 98, 103, 104], true) ∧
     ¬ ([97, 98, 103, 104] <+: ([97, 98, 99, 100, 101, 102, 103, 104] : List Byte))) := by
  refine ⟨⟨?_, ?_, ?_, ?_, ?_, ?_⟩, ⟨?_, ?_, ?_, ?_, ?_⟩⟩ <;> first | rfl | decide

/-- C2 (counterexample): capacity 4, the sink never ready. Cycle 1 reads "abc": the buffer
is full (3 unread bytes). Cycle 2 calls `c_read` again; its reads deliver "d" and then "ef".
Six bytes are stored, none is sent, three ("def") are unread: "a", "b" and "c" are
discarded. -/
theorem sink_stalled_discards_three :
    (main_loop 4 (main_init [0, 0, 0, 0])
        [ { r_ready := true, w_ready := false, reads := [ReadRes.data [97, 98, 99]],
            w1 := 0, w2 := 0 } ]).map
        (fun x => (buffered 4 x.1.buf_head x.1.buf_tail, x.1.r_set, x.2))
      = some (4 - 1, true, false) ∧
    (main_loop 4 (main_init [0, 0, 0, 0])
        [ { r_ready := true, w_ready := false, reads := [ReadRes.data [97, 98, 99]],
            w1 := 0, w2 := 0 },
          { r_ready := true, w_ready := false,
            reads := [ReadRes.data [100], ReadRes.data [101, 102]], w1 := 0, w2 := 0 } ]).map
        (fun x => (x.1.stored, x.1.sent, unread x.1.buf x.1.buf_head x.1.buf_tail,
          x.1.stored.length - (x.1.sent.length + buffered 4 x.1.buf_head x.1.buf_tail)))
      = some ([97, 98, 99, 100, 101, 102], [], [100, 101, 102], 3) ∧
    ¬ (3 ≤ 1) := by
  refine ⟨?_, ?_, ?_⟩ <;> first | rfl | decide

theorem main_write_idle (size : Nat) (s : Loop) (ev : Cycle) (h : s.w_set = false) :
    main_write size s ev =
      ({ s with w_set := !empty_buf s.buf_head s.buf_tail },
       empty_buf s.buf_head s.buf_tail && s.done_reading) := by
  unfold main_write
  cases he : empty_buf s.buf_head s.buf_tail <;> simp [h, he]

/-- C2 (amended): in a cycle in which stdin is ready, stdout is not and `done_reading` is
false, `c_read` is called whatever the cursors are, also when the buffer is full; nothing is
sent; unless `c_read` returns -1 stdin is put back into `r_set` and the loop does not leave.
After the cycle at most `size - 1` bytes are unread, so a cycle that starts with `size - 1`
unread bytes and stores `k` bytes discards at least `k` unread bytes. -/
theorem main_cycle_sink_not_ready (size : Nat) (s : Loop) (ev : Cycle) (s1 : Loop) (ex : Bool)
    (h2 : 2 ≤ size) (hd : s.done_reading = false) (hr : s.r_set = true)
    (her : ev.r_ready = true) (hew : ev.w_ready = false)
    (hrun : main_cycle size s ev = some (s1, ex)) :
    ∃ r, c_read size s.buf s.buf_head s.buf_tail ev.reads = some r ∧
      s1.buf_head = r.head ∧ s1.buf_tail = r.tail ∧ s1.stored = s.stored ++ r.stored ∧
      s1.sent = s.sent ∧
      (r.c ≠ -1 → s1.done_reading = false ∧ s1.r_set = true ∧ ex = false) ∧
      buffered size s1.buf_head s1.buf_tail ≤ size - 1 ∧
      (buffered size s.buf_head s.buf_tail = size - 1 →
        r.stored.length ≤ buffered size s.buf_head s.buf_tail + r.stored.length
          - buffered size s1.buf_head s1.buf_tail) := by
  have hb : ∀ a b : Nat, buffered size a b ≤ size - 1 := by
    intro a b
    have := Nat.mod_lt (a + size - b) (show 0 < size by omega)
    unfold buffered
    omega
  unfold main_cycle at hrun
  simp only [main_select, hr, her, hew, Bool.and_true, Bool.and_false, Bool.not_true,
    Bool.false_and, main_read] at hrun
  cases hc : c_read size s.buf s.buf_head s.buf_tail ev.reads with
  | none =>
    rw [hc] at hrun
    simp at hrun
  | some r =>
    rw [hc] at hrun
    simp only [if_true, Bool.false_eq_true, if_false, Option.some.injEq] at hrun
    rw [main_write_idle _ _ _ rfl] at hrun
    obtain ⟨h1, h2⟩ := Prod.mk.inj hrun
    subst h1
    subst h2
    refine ⟨r, rfl, rfl, rfl, rfl, rfl, ?_, hb _ _, ?_⟩
    · intro hcm
      simp [hcm, hd]
    · intro _
      have := hb r.head r.tail
      simp only
      omega

/-- Witness for the amended C2: the second cycle of the counterexample, entered with a full
buffer of capacity 4. -/
theorem main_cycle_sink_not_ready_witness :
    ∃ r, c_read 4 [97, 98, 99, 0] 3 0 [ReadRes.data [100], ReadRes.data [101, 102]] = some r ∧
      2 = r.head ∧ 3 = r.tail ∧
      [97, 98, 99, 100, 101, 102] = [97, 98, 99] ++ r.stored ∧
      ([] : List Byte) = [] ∧
      (r.c ≠ -1 → false = false ∧ true = true ∧ false = false) ∧
      buffered 4 2 3 ≤ 4 - 1 ∧
      (buffered 4 3 0 = 4 - 1 →
        r.stored.length ≤ buffered 4 3 0 + r.stored.length - buffered 4 2 3) :=
  main_cycle_sink_not_ready 4
    { buf := [97, 98, 99, 0], buf_head := 3, buf_tail := 0, done_reading := false,
      r_set := true, w_set := true, stored := [97, 98, 99], sent := [] }
    { r_ready := true, w_ready := false,
      reads := [ReadRes.data [100], ReadRes.data [101, 102]], w1 := 0, w2 := 0 }
    { buf := [101, 102, 99, 100], buf_head := 2, buf_tail := 3, done_reading := false,
      r_set := true, w_set := true, stored := [97, 98, 99, 100, 101, 102], sent := [] }
    false (by decide) rfl rfl rfl rfl rfl

/-- C10 (code at the failing input): `empty_buf` holds in the initial state. Capacity 4:
read "abc"; write 2; read "d", then would-block; two writes of the run `[2, 4)` that take
1 byte each. Four bytes are stored and four are sent ("abcc"), yet `head = 0`, `tail = 2` and
`empty_buf` is false: "c" and "d" are still unread. -/
theorem net_zero_not_empty :
    empty_buf (main_init [0, 0, 0, 0]).buf_head (main_init [0, 0, 0, 0]).buf_tail = true ∧
    (main_loop 4 (main_init [0, 0, 0, 0])
        [ { r_ready := true, w_ready := false, reads := [ReadRes.data [97, 98, 99]],
            w1 := 0, w2 := 0 },
          { r_ready := false, w_ready := true, reads := [], w1 := 2, w2 := 0 },
          { r_ready := true, w_ready := false,
            reads := [ReadRes.data [100], ReadRes.fail Errno.EAGAIN], w1 := 0, w2 := 0 },
          { r_ready := false, w_ready := true, reads := [], w1 := 1, w2 := 0 },
          { r_ready := false, w_ready := true, reads := [], w1 := 1, w2 := 0 } ]).map
        (fun x => (x.1.stored, x.1.sent, x.1.stored.length - x.1.sent.length,
          x.1.sent.length - x.1.stored.length, x.1.buf_head, x.1.buf_tail,
          empty_buf x.1.buf_head x.1.buf_tail,
          unread x.1.buf x.1.buf_head x.1.buf_tail))
      = some ([97, 98, 99, 100], [97, 98, 99, 99], 0, 0, 0, 2, false, [99, 100]) :=
  ⟨rfl, rfl⟩

/-! ## The capacity argument -/

/-- C14 (counterexample): the argument `-1` gives the capacity 4294967295, not
`max 2 (-1) = 2`; so does every negative argument give a capacity of at least 2147483648,
here `-5` and `-2147483648`. -/
theorem negative_capacity_not_clamped :
    main_buf_size (some (-1)) = 4294967295 ∧
    main_buf_size (some (-1)) ≠ 2 ∧
    main_buf_size (some (-5)) = 4294967291 ∧
    main_buf_size (some (-2147483648)) = 2147483648 := by
  decide

/-- C14 (amended): for every integer `v` with `0 <= v < 2^31` given as the argument, the
capacity used is `max 2 v`: 0 and 1 are clamped to 2 and every value from 2 on is used as it
is. -/
theorem main_buf_size_clamps (v : Int) (hlo : 0 ≤ v) (hhi : v < 2147483648) :
    (main_buf_size (some v) : Int) = max 2 v ∧
    (v < 2 → main_buf_size (some v) = 2) ∧
    (2 ≤ v → (main_buf_size (some v) : Int) = v) ∧
    2 ≤ main_buf_size (some v) := by
  refine ⟨?_, ?_, ?_, ?_⟩
  all_goals
    simp only [main_buf_size, toU32]
    split <;> omega

/-- Witness for the amended C14: the arguments 1 and 7. -/
theorem main_buf_size_clamps_witness :
    ((main_buf_size (some 1) : Int) = max 2 1 ∧
      ((1 : Int) < 2 → main_buf_size (some 1) = 2) ∧
      ((2 : Int) ≤ 1 → (main_buf_size (some 1) : Int) = 1) ∧
      2 ≤ main_buf_size (some 1)) ∧
    ((main_buf_size (some 7) : Int) = max 2 7 ∧
      ((7 : Int) < 2 → main_buf_size (some 7) = 2) ∧
      ((2 : Int) ≤ 7 → (main_buf_size (some 7) : Int) = 7) ∧
      2 ≤ main_buf_size (some 7)) :=
  ⟨main_buf_size_clamps 1 (by decide) (by decide),
   main_buf_size_clamps 7 (by decide) (by decide)⟩

/-! ## `c_read`: one read attempt -/

/-- C15: in a state with `head < size` and `tail < size`, a read attempt of `c_read` that
delivers `n` bytes, `1 <= n <= size - head`, leaves the cursors and the loop flag as the
specification's `pull` prescribes (`pull_step_spec`): a short read moves `head` to
`(head + n) mod size`, moves `tail` to `(new head + 1) mod size` when `tail` was ahead and is
reached or passed, and stops; an exact fill sets `head` to 0, `tail` to 1 if it was 0, and
goes on. The bytes are stored at the old `head` and the request was for `size - head`. -/
theorem c_read_body_refines_pull (size : Nat) (s : ReadState) (bs : List Byte)
    (hsize : size < 4294967296) (hh : s.head < size)
    (hn1 : 1 ≤ bs.length) (hn2 : bs.length ≤ size - s.head) :
    ((c_read_body size s (ReadRes.data bs)).head,
     (c_read_body size s (ReadRes.data bs)).tail,
     (c_read_body size s (ReadRes.data bs)).more_bytes)
      = pull_step_spec size s.head s.tail bs.length ∧
    (c_read_body size s (ReadRes.data bs)).buf = store s.buf s.head bs ∧
    (c_read_body size s (ReadRes.data bs)).stored = s.stored ++ bs ∧
    (c_read_body size s (ReadRes.data bs)).reqs = s.reqs ++ [(s.head, size - s.head)] := by
  by_cases hfull : s.head + bs.length = size
  · rw [c_read_body_full size s bs hsize hh hfull]
    have hlt : ¬ bs.length < size - s.head := by omega
    simp only [pull_step_spec, if_neg hlt, and_self]
  · have hshort : s.head + bs.length < size := by omega
    rw [c_read_body_short size s bs hsize hn1 hshort]
    have hlt : bs.length < size - s.head := by omega
    have hne : ¬ (s.head + bs.length = 0) := by omega
    simp only [pull_step_spec, if_pos hlt, Nat.mod_eq_of_lt hshort, hne, or_false, and_self]

/-- Witness for C15: capacity 8, `head = 2`, `tail = 5`, a short read of 4 bytes. -/
theorem c_read_body_refines_pull_witness :
    ((c_read_body 8
        { buf := [105, 106, 99, 100, 101, 102, 103, 104], head := 2, tail := 5,
          more_bytes := true, n := 0, c := 0, stored := [], reqs := [] }
        (ReadRes.data [107, 108, 109, 110])).head,
     (c_read_body 8
        { buf := [105, 106, 99, 100, 101, 102, 103, 104], head := 2, tail := 5,
          more_bytes := true, n := 0, c := 0, stored := [], reqs := [] }
        (ReadRes.data [107, 108, 109, 110])).tail,
     (c_read_body 8
        { buf := [105, 106, 99, 100, 101, 102, 103, 104], head := 2, tail := 5,
          more_bytes := true, n := 0, c := 0, stored := [], reqs := [] }
        (ReadRes.data [107, 108, 109, 110])).more_bytes)
      = pull_step_spec 8 2 5 4 ∧
    (c_read_body 8
        { buf := [105, 106, 99, 100, 101, 102, 103, 104], head := 2, tail := 5,
          more_bytes := true, n := 0, c := 0, stored := [], reqs := [] }
        (ReadRes.data [107, 108, 109, 110])).buf
      = store [105, 106, 99, 100, 101, 102, 103, 104] 2 [107, 108, 109, 110] ∧
    (c_read_body 8
        { buf := [105, 106, 99, 100, 101, 102, 103, 104], head := 2, tail := 5,
          more_bytes := true, n := 0, c := 0, stored := [], reqs := [] }
        (ReadRes.data [107, 108, 109, 110])).stored = [] ++ [107, 108, 109, 110] ∧
    (c_read_body 8
        { buf := [105, 106, 99, 100, 101, 102, 103, 104], head := 2, tail := 5,
          more_bytes := true, n := 0, c := 0, stored := [], reqs := [] }
        (ReadRes.data [107, 108, 109, 110])).reqs = [] ++ [(2, 8 - 2)] :=
  c_read_body_refines_pull 8
    { buf := [105, 106, 99, 100, 101, 102, 103, 104], head := 2, tail := 5,
      more_bytes := true, n := 0, c := 0, stored := [], reqs := [] }
    [107, 108, 109, 110] (by decide) (by decide) (by decide) (by decide)

/-! ## `c_read`: a first attempt without data -/

theorem c_read_loop_done (size : Nat) (s : ReadState) (rs : List ReadRes)
    (h : s.more_bytes = false) : c_read_loop size s rs = some s := by
  cases rs <;> simp [c_read_loop, h]

/-- C16: for every state, when the first `read` of a `c_read` call fails with `errno = e`,
`c_read` returns with storage, `head` and `tail` unchanged and nothing stored, the result
being 0 for `EAGAIN`, `EWOULDBLOCK` and `EINTR` and -1 for any other error; when it delivers
0 bytes (end of stream) the same holds with result -1. In the loop (lines 54-59), after a
`c_read` with result `c`, `done_reading` is true exactly when `c = -1` or it was true
before. -/
theorem c_read_no_data (size : Nat) (buf : List Byte) (head tail : Nat) (rs : List ReadRes) :
    (∀ e : Errno, ∃ r, c_read size buf head tail (ReadRes.fail e :: rs) = some r ∧
      r.buf = buf ∧ r.head = head ∧ r.tail = tail ∧ r.stored = [] ∧
      r.c = (if e = Errno.EAGAIN ∨ e = Errno.EWOULDBLOCK ∨ e = Errno.EINTR then 0 else -1)) ∧
    (∃ r, c_read size buf head tail (ReadRes.data [] :: rs) = some r ∧
      r.buf = buf ∧ r.head = head ∧ r.tail = tail ∧ r.stored = [] ∧ r.c = -1) ∧
    (∀ (s : Loop) (ev : Cycle) (r : ReadState), s.r_set = true →
      c_read size s.buf s.buf_head s.buf_tail ev.reads = some r →
      ∃ s1, main_read size s ev = some s1 ∧
        s1.done_reading = (decide (r.c = -1) || s.done_reading) ∧
        (s.done_reading = false → (s1.done_reading = true ↔ r.c = -1))) := by
  refine ⟨?_, ?_, ?_⟩
  · intro e
    have h : c_read size buf head tail (ReadRes.fail e :: rs) =
        some (c_read_body size
          { buf := buf, head := head, tail := tail, more_bytes := true, n := 0, c := 0,
            stored := [], reqs := [] } (ReadRes.fail e)) := by
      simp only [c_read, c_read_loop, if_true]
      exact c_read_loop_done size _ rs (by simp [c_read_body])
    rw [h]
    exact ⟨_, rfl, by simp [c_read_body]⟩
  · have h : c_read size buf head tail (ReadRes.data [] :: rs) =
        some (c_read_body size
          { buf := buf, head := head, tail := tail, more_bytes := true, n := 0, c := 0,
            stored := [], reqs := [] } (ReadRes.data [])) := by
      simp only [c_read, c_read_loop, if_true]
      exact c_read_loop_done size _ rs (by simp [c_read_body])
    rw [h]
    exact ⟨_, rfl, by simp [c_read_body]⟩
  · intro s ev r hr hc
    have h : main_read size s ev = some
        { s with
          buf := r.buf, buf_head := r.head, buf_tail := r.tail
          done_reading := if r.c = -1 then true else s.done_reading
          r_set := if !(if r.c = -1 then true else s.done_reading) then true
                   else (if r.c = -1 then false else s.r_set)
          stored := s.stored ++ r.stored } := by
      simp only [main_read, hr, if_true, hc]
    rw [h]
    refine ⟨_, rfl, ?_, ?_⟩
    · by_cases h1 : r.c = -1 <;> simp [h1]
    · intro hd
      by_cases h1 : r.c = -1 <;> simp [h1, hd]

/-- Witness for C16: capacity 4, `head = 3`, `tail = 2`; `EINTR` gives 0, `EOTHER` gives -1,
end of stream gives -1, and the loop then has `done_reading` set. -/
theorem c_read_no_data_witness :
    (∃ r, c_read 4 [97, 98, 99, 0] 3 2 [ReadRes.fail Errno.EINTR] = some r ∧
      r.buf = [97, 98, 99, 0] ∧ r.head = 3 ∧ r.tail = 2 ∧ r.stored = [] ∧ r.c = 0) ∧
    (∃ r, c_read 4 [97, 98, 99, 0] 3 2 [ReadRes.fail Errno.EOTHER] = some r ∧
      r.buf = [97, 98, 99, 0] ∧ r.head = 3 ∧ r.tail = 2 ∧ r.stored = [] ∧ r.c = -1) ∧
    (∃ r, c_read 4 [97, 98, 99, 0] 3 2 [ReadRes.data []] = some r ∧
      r.buf = [97, 98, 99, 0] ∧ r.head = 3 ∧ r.tail = 2 ∧ r.stored = [] ∧ r.c = -1) ∧
    (∃ s1,
      main_read 4
        { buf := [97, 98, 99, 0], buf_head := 3, buf_tail := 2, done_reading := false,
          r_set := true, w_set := false, stored := [97, 98, 99], sent := [97, 98] }
        { r_ready := true, w_ready := false, reads := [ReadRes.data []], w1 := 0, w2 := 0 }
        = some s1 ∧
      s1.done_reading = (decide ((-1 : Int) = -1) || false) ∧
      (false = false → (s1.done_reading = true ↔ (-1 : Int) = -1))) :=
  ⟨(c_read_no_data 4 [97, 98, 99, 0] 3 2 []).1 Errno.EINTR,
   (c_read_no_data 4 [97, 98, 99, 0] 3 2 []).1 Errno.EOTHER,
   (c_read_no_data 4 [97, 98, 99, 0] 3 2 []).2.1,
   (c_read_no_data 4 [97, 98, 99, 0] 3 2 []).2.2
     { buf := [97, 98, 99, 0], buf_head := 3, buf_tail := 2, done_reading := false,
       r_set := true, w_set := false, stored := [97, 98, 99], sent := [97, 98] }
     { r_ready := true, w_ready := false, reads := [ReadRes.data []], w1 := 0, w2 := 0 }
     { buf := [97, 98, 99, 0], head := 3, tail := 2, more_bytes := false, n := 0, c := -1,
       stored := [], reqs := [(3, 1)] }
     rfl rfl⟩

/-! ## The end of a cycle -/

theorem main_write_end (size : Nat) (s : Loop) (ev : Cycle) :
    ((main_write size s ev).2 = true ↔
      empty_buf (main_write size s ev).1.buf_head (main_write size s ev).1.buf_tail = true ∧
      (main_write size s ev).1.done_reading = true) ∧
    ((main_write size s ev).1.w_set = true ↔
      empty_buf (main_write size s ev).1.buf_head (main_write size s ev).1.buf_tail = false) ∧
    (main_write size s ev).1.done_reading = s.done_reading := by
  unfold main_write
  by_cases hw : s.w_set = true
  · cases he : empty_buf (c_write size s.buf s.buf_head s.buf_tail ev.w1 ev.w2).head
        (c_write size s.buf s.buf_head s.buf_tail ev.w1 ev.w2).tail <;> simp [hw, he]
  · cases he : empty_buf s.buf_head s.buf_tail <;> simp [hw, he]

/-- C17: at the end of every cycle of the loop, the loop exits exactly when the buffer is
empty and `done_reading` is true; stdout is in `w_set` for the next `select` exactly when
the buffer is not empty, in particular whenever the loop does not exit. -/
theorem main_cycle_end (size : Nat) (s : Loop) (ev : Cycle) (s1 : Loop) (ex : Bool)
    (hrun : main_cycle size s ev = some (s1, ex)) :
    (ex = true ↔ empty_buf s1.buf_head s1.buf_tail = true ∧ s1.done_reading = true) ∧
    (ex = false → (s1.w_set = true ↔ empty_buf s1.buf_head s1.buf_tail = false)) ∧
    (ex = false → (s1.w_set = true ↔ s1.buf_head ≠ s1.buf_tail)) := by
  unfold main_cycle at hrun
  simp only at hrun
  split at hrun
  · exact absurd hrun (by simp)
  · split at hrun
    · exact absurd hrun (by simp)
    · rename_i t ht
      have h := main_write_end size t ev
      rw [Option.some.injEq] at hrun
      rw [hrun] at h
      refine ⟨h.1, fun _ => h.2.1, fun _ => ?_⟩
      rw [h.2.1]
      simp [empty_buf]

/-- Witness for C17: capacity 4, a cycle that reads "abc" into the empty buffer; the loop
does not exit and stdout is put into `w_set`. -/
theorem main_cycle_end_witness :
    (false = true ↔ empty_buf 3 0 = true ∧ false = true) ∧
    (false = false → (true = true ↔ empty_buf 3 0 = false)) ∧
    (false = false → (true = true ↔ 3 ≠ 0)) :=
  main_cycle_end 4 (main_init [0, 0, 0, 0])
    { r_ready := true, w_ready := false, reads := [ReadRes.data [97, 98, 99]],
      w1 := 0, w2 := 0 }
    { buf := [97, 98, 99, 0], buf_head := 3, buf_tail := 0, done_reading := false,
      r_set := true, w_set := true, stored := [97, 98, 99], sent := [] }
    false rfl

/-! ## Return values -/

/-- C18 (code at the failing input): capacity 4, `head = tail = 0`. A read that delivers 4
bytes (an exact fill) followed by would-block: 4 bytes are stored and `c_read` returns 0.
The same read followed by a short read of 2 bytes: 6 bytes are stored and `c_read`
returns 2. -/
theorem c_read_result_not_total :
    (c_read 4 [0, 0, 0, 0] 0 0
        [ReadRes.data [97, 98, 99, 100], ReadRes.fail Errno.EAGAIN]).map
      (fun r => (r.c, r.stored, r.head, r.tail))
      = some (0, [97, 98, 99, 100], 0, 1) ∧
    (c_read 4 [0, 0, 0, 0] 0 0
        [ReadRes.data [97, 98, 99, 100], ReadRes.data [101, 102]]).map
      (fun r => (r.c, r.stored.length, r.head, r.tail))
      = some (2, 6, 2, 3) ∧
    c_read_valid 4 [0, 0, 0, 0] 0 0
        [ReadRes.data [97, 98, 99, 100], ReadRes.fail Errno.EAGAIN] = true ∧
    c_read_valid 4 [0, 0, 0, 0] 0 0
        [ReadRes.data [97, 98, 99, 100], ReadRes.data [101, 102]] = true := by
  refine ⟨?_, ?_, ?_, ?_⟩ <;> decide

/-- C19 (code at the failing input): capacity 4, storage "abcd", `head = 1`, `tail = 2`; the
first write takes the 2 bytes of `[2, 4)`, the second the 1 byte of `[0, 1)`. Three bytes
("cda") go to the sink and `c_write` returns 1, the result of the second write alone. -/
theorem c_write_result_not_sum :
    (c_write 4 [97, 98, 99, 100] 1 2 2 1).n = 1 ∧
    (c_write 4 [97, 98, 99, 100] 1 2 2 1).sent = [99, 100, 97] ∧
    (c_write 4 [97, 98, 99, 100] 1 2 2 1).n ≠ 2 + 1 ∧
    (c_write 4 [97, 98, 99, 100] 1 2 2 1).reqs = [(2, 2), (0, 1)] ∧
    (c_write 4 [97, 98, 99, 100] 2 2 0 0).n = 0 ∧
    (c_write 4 [97, 98, 99, 100] 3 1 2 0).n = 2 ∧
    (c_write 4 [97, 98, 99, 100] 1 2 1 0).n = 1 := by
  decide

/-! ## Invariants of `c_read` -/

theorem c_read_body_inv (size : Nat) (s : ReadState) (r : ReadRes)
    (h2 : 2 ≤ size) (hsize : size < 4294967296) (hlen : s.buf.length = size)
    (hh : s.head < size) (ht : s.tail < size)
    (hv : ∀ bs, r = ReadRes.data bs → bs.length ≤ size - s.head) :
    (c_read_body size s r).head < size ∧
    (c_read_body size s r).tail < size ∧
    (c_read_body size s r).buf.length = size ∧
    (c_read_body size s r).reqs = s.reqs ++ [(s.head, size - s.head)] ∧
    (((c_read_body size s r).stored = s.stored ∧ (c_read_body size s r).head = s.head ∧
        (c_read_body size s r).tail = s.tail ∧ (c_read_body size s r).more_bytes = false) ∨
     ((c_read_body size s r).stored ≠ [] ∧
        (c_read_body size s r).head ≠ (c_read_body size s r).tail)) := by
  have e1 : toU32 ((size : Int) - (s.head : Int)) = size - s.head :=
    toU32_sub size s.head (by omega) hsize
  cases r with
  | fail e =>
    simp [c_read_body, e1, hh, ht, hlen]
  | data bs =>
    have hn2 := hv bs rfl
    by_cases h0 : bs.length = 0
    · have hc : ((bs.length : Nat) : Int) = 0 := by omega
      simp only [c_read_body, e1, hc, if_true]
      simp [hh, ht, hlen]
    · have hn1 : 1 ≤ bs.length := by omega
      have hbs : bs ≠ [] := by
        intro h
        rw [h] at h0
        exact h0 rfl
      have hst : s.stored ++ bs ≠ [] := by
        intro h
        exact hbs (List.append_eq_nil.mp h).2
      have hl : (store s.buf s.head bs).length = size := by
        rw [length_store _ _ _ (by omega), hlen]
      by_cases hfull : s.head + bs.length = size
      · rw [c_read_body_full size s bs hsize hh hfull]
        refine ⟨by show 0 < size; omega, ?_, hl, rfl, Or.inr ⟨hst, ?_⟩⟩
        · show (if s.tail = 0 then 1 else s.tail) < size
          split <;> omega
        · show 0 ≠ (if s.tail = 0 then 1 else s.tail)
          split <;> omega
      · have hshort : s.head + bs.length < size := by omega
        rw [c_read_body_short size s bs hsize hn1 hshort]
        have hm : (s.head + bs.length + 1) % size < size := Nat.mod_lt _ (by omega)
        refine ⟨hshort, ?_, hl, rfl, Or.inr ⟨hst, ?_⟩⟩
        · show (if s.head < s.tail ∧ s.tail ≤ s.head + bs.length
              then (s.head + bs.length + 1) % size else s.tail) < size
          split
          · exact hm
          · exact ht
        · show s.head + bs.length ≠ (if s.head < s.tail ∧ s.tail ≤ s.head + bs.length
              then (s.head + bs.length + 1) % size else s.tail)
          split
          · by_cases hw : s.head + bs.length + 1 < size
            · rw [Nat.mod_eq_of_lt hw]
              omega
            · have hw2 : s.head + bs.length + 1 = size := by omega
              rw [hw2, Nat.mod_self]
              omega
          · omega

theorem c_read_loop_inv (size : Nat) (h2 : 2 ≤ size) (hsize : size < 4294967296) :
    ∀ (rs : List ReadRes) (s r : ReadState), s.buf.length = size → s.head < size →
      s.tail < size → reads_valid size s rs = true → c_read_loop size s rs = some r →
      r.head < size ∧ r.tail < size ∧ r.buf.length = size ∧
      (∀ q ∈ r.reqs, q ∈ s.reqs ∨ (1 ≤ q.2 ∧ q.1 + q.2 = size)) ∧
      ((s.stored ≠ [] → s.head ≠ s.tail) → r.stored ≠ [] → r.head ≠ r.tail) := by
  intro rs
  induction rs with
  | nil =>
    intro s r hlen hh ht _ hr
    by_cases hm : s.more_bytes = true
    · simp [c_read_loop, hm] at hr
    · simp only [c_read_loop, hm, if_false, Option.some.injEq, Bool.false_eq_true] at hr
      subst hr
      exact ⟨hh, ht, hlen, fun q hq => Or.inl hq, fun h => h⟩
  | cons x xs ih =>
    intro s r hlen hh ht hv hr
    by_cases hm : s.more_bytes = true
    · simp only [c_read_loop, hm, if_true] at hr
      simp only [reads_valid, hm, if_true, Bool.and_eq_true] at hv
      have e1 : toU32 ((size : Int) - (s.head : Int)) = size - s.head :=
        toU32_sub size s.head (by omega) hsize
      have hvx : ∀ bs, x = ReadRes.data bs → bs.length ≤ size - s.head := by
        intro bs hx
        have := hv.1
        rw [hx] at this
        simpa [e1] using this
      obtain ⟨b1, b2, b3, b4, b5⟩ := c_read_body_inv size s x h2 hsize hlen hh ht hvx
      obtain ⟨i1, i2, i3, i4, i5⟩ := ih (c_read_body size s x) r b3 b1 b2 hv.2 hr
      refine ⟨i1, i2, i3, ?_, ?_⟩
      · intro q hq
        rcases i4 q hq with h | h
        · rw [b4] at h
          rcases List.mem_append.mp h with h' | h'
          · exact Or.inl h'
          · right
            rw [List.mem_singleton] at h'
            rw [h']
            exact ⟨by show 1 ≤ size - s.head; omega, by show s.head + (size - s.head) = size; omega⟩
        · exact Or.inr h
      · intro hs
        apply i5
        rcases b5 with ⟨c1, c2, c3, _⟩ | ⟨_, c2⟩
        · rw [c1, c2, c3]
          exact hs
        · exact fun _ => c2
    · simp only [c_read_loop, hm, if_false, Option.some.injEq, Bool.false_eq_true] at hr
      subst hr
      exact ⟨hh, ht, hlen, fun q hq => Or.inl hq, fun h => h⟩

theorem c_read_loop_returns (size : Nat) (e : Errno) :
    ∀ (rs : List ReadRes) (s : ReadState),
      ∃ r, c_read_loop size s (rs ++ [ReadRes.fail e]) = some r := by
  intro rs
  induction rs with
  | nil =>
    intro s
    by_cases hm : s.more_bytes = true
    · refine ⟨c_read_body size s (ReadRes.fail e), ?_⟩
      simp [c_read_loop, hm, c_read_body]
    · exact ⟨s, by simp [c_read_loop, hm]⟩
  | cons x xs ih =>
    intro s
    by_cases hm : s.more_bytes = true
    · obtain ⟨r, hr⟩ := ih (c_read_body size s x)
      exact ⟨r, by simp [c_read_loop, hm, hr]⟩
    · exact ⟨s, by simp [c_read_loop, hm]⟩

/-- C11: for every capacity `size >= 2` and every state with `head < size` and
`tail < size`, after a `c_read` call that stored at least one byte (each delivery being at
most the `size - head` bytes requested), `head` differs from `tail`: `empty_buf` is false. -/
theorem c_read_stored_not_empty (size : Nat) (buf : List Byte) (head tail : Nat)
    (rs : List ReadRes) (r : ReadState)
    (h2 : 2 ≤ size) (hsize : size < 4294967296) (hlen : buf.length = size)
    (hh : head < size) (ht : tail < size)
    (hv : c_read_valid size buf head tail rs = true)
    (hr : c_read size buf head tail rs = some r) (hs : r.stored ≠ []) :
    r.head ≠ r.tail ∧ empty_buf r.head r.tail = false := by
  have h := (c_read_loop_inv size h2 hsize rs _ r hlen hh ht hv hr).2.2.2.2
    (fun h0 => absurd rfl h0) hs
  exact ⟨h, by simpa [empty_buf] using h⟩

/-- Witness for C11: capacity 4, `head = 3`, `tail = 2`; the read delivers "d", an exact
fill of `[3, 4)`, and the next read reports would-block. -/
theorem c_read_stored_not_empty_witness :
    (0 : Nat) ≠ 2 ∧ empty_buf 0 2 = false :=
  c_read_stored_not_empty 4 [97, 98, 99, 0] 3 2
    [ReadRes.data [100], ReadRes.fail Errno.EAGAIN]
    { buf := [97, 98, 99, 100], head := 0, tail := 2, more_bytes := false, n := -1, c := 0,
      stored := [100], reqs := [(3, 1), (0, 4)] }
    (by decide) (by decide) (by decide) (by decide) (by decide) (by decide) rfl (by decide)

/-- C20: for every capacity `size >= 2` and every state with `head < size` and
`tail < size`: a `c_read` whose reads deliver at most the `size - head` bytes requested ends
with `head < size` and `tail < size`, every read request `(offset, count)` it made has
`count >= 1` and `offset + count = size`, and it returns whenever some read fails; a
`c_write` whose writes return between 0 and the count requested ends with `head < size` and
`tail < size`, and every write request has `offset + count <= size`. -/
theorem index_bounds (size : Nat) (buf : List Byte) (head tail : Nat)
    (h2 : 2 ≤ size) (hsize : size < 4294967296) (hlen : buf.length = size)
    (hh : head < size) (ht : tail < size) :
    (∀ (rs : List ReadRes) (r : ReadState), c_read_valid size buf head tail rs = true →
      c_read size buf head tail rs = some r →
      r.head < size ∧ r.tail < size ∧ r.buf.length = size ∧
      ∀ q ∈ r.reqs, 1 ≤ q.2 ∧ q.1 + q.2 = size) ∧
    (∀ (rs : List ReadRes) (e : Errno),
      ∃ r, c_read size buf head tail (rs ++ [ReadRes.fail e]) = some r) ∧
    (∀ w1 w2 : Int, 0 ≤ w1 → w1 ≤ first_count size head tail → 0 ≤ w2 → w2 ≤ head →
      (c_write size buf head tail w1 w2).head < size ∧
      (c_write size buf head tail w1 w2).tail < size ∧
      ∀ q ∈ (c_write size buf head tail w1 w2).reqs, q.1 + q.2 ≤ size) := by
  refine ⟨?_, ?_, ?_⟩
  · intro rs r hv hr
    obtain ⟨i1, i2, i3, i4, _⟩ := c_read_loop_inv size h2 hsize rs _ r hlen hh ht hv hr
    refine ⟨i1, i2, i3, ?_⟩
    intro q hq
    rcases i4 q hq with h | h
    · simp at h
    · exact h
  · intro rs e
    exact c_read_loop_returns size e rs _
  · intro w1 w2 hw1 hw1c hw2 hw2c
    by_cases hc1 : tail < head
    · have e1 : toU32 ((head : Int) - (tail : Int)) = head - tail :=
        toU32_sub head tail (by omega) (by omega)
      have hw : w1 ≤ ((head - tail : Nat) : Int) := by
        simpa [first_count, hc1, e1] using hw1c
      have e2 : toU32 ((tail : Int) + w1) < size := by
        unfold toU32
        omega
      simp only [c_write, if_pos hc1, e1, List.mem_singleton]
      refine ⟨hh, e2, ?_⟩
      intro q hq
      rw [hq]
      show tail + (head - tail) ≤ size
      omega
    · by_cases hc2 : head < tail
      · have e1 : toU32 ((size : Int) - (tail : Int)) = size - tail :=
          toU32_sub size tail (by omega) hsize
        have e3 : toU32 w2 < size := by
          unfold toU32
          omega
        simp only [c_write, if_neg hc1, if_pos hc2, e1]
        split
        · refine ⟨hh, e3, ?_⟩
          intro q hq
          simp only [List.mem_cons, List.mem_singleton, List.not_mem_nil, or_false] at hq
          rcases hq with h | h
          · rw [h]
            show tail + (size - tail) ≤ size
            omega
          · rw [h]
            show 0 + head ≤ size
            omega
        · refine ⟨hh, ht, ?_⟩
          intro q hq
          rw [List.mem_singleton] at hq
          rw [hq]
          show tail + (size - tail) ≤ size
          omega
      · simp only [c_write, if_neg hc1, if_neg hc2]
        exact ⟨hh, ht, fun q hq => absurd hq (List.not_mem_nil q)⟩

/-- Witness for C20: capacity 4, `head = 3`, `tail = 2`; a `c_read` whose reads deliver "d"
and then report would-block, and a `c_write` whose write takes the one unread byte. -/
theorem index_bounds_witness :
    ((0 : Nat) < 4 ∧ (2 : Nat) < 4 ∧ ([97, 98, 99, 100] : List Byte).length = 4 ∧
      ∀ q ∈ [((3 : Nat), (1 : Nat)), (0, 4)], 1 ≤ q.2 ∧ q.1 + q.2 = 4) ∧
    (∃ r, c_read 4 [97, 98, 99, 0] 3 2
        ([ReadRes.data [100]] ++ [ReadRes.fail Errno.EAGAIN]) = some r) ∧
    ((c_write 4 [97, 98, 99, 0] 3 2 1 0).head < 4 ∧
      (c_write 4 [97, 98, 99, 0] 3 2 1 0).tail < 4 ∧
      ∀ q ∈ (c_write 4 [97, 98, 99, 0] 3 2 1 0).reqs, q.1 + q.2 ≤ 4) :=
  ⟨(index_bounds 4 [97, 98, 99, 0] 3 2 (by decide) (by decide) (by decide) (by decide)
      (by decide)).1
      [ReadRes.data [100], ReadRes.fail Errno.EAGAIN]
      { buf := [97, 98, 99, 100], head := 0, tail := 2, more_bytes := false, n := -1, c := 0,
        stored := [100], reqs := [(3, 1), (0, 4)] }
      (by decide) rfl,
   (index_bounds 4 [97, 98, 99, 0] 3 2 (by decide) (by decide) (by decide) (by decide)
      (by decide)).2.1 [ReadRes.data [100]] Errno.EAGAIN,
   (index_bounds 4 [97, 98, 99, 0] 3 2 (by decide) (by decide) (by decide) (by decide)
      (by decide)).2.2 1 0 (by decide) (by decide) (by decide) (by decide)⟩

/-! ## End of stream -/

/-- C12: in a cycle entered with stdout not in `w_set` (the buffer was empty) in which
`c_read` is called, returns -1 and leaves the buffer empty, `c_write` is not called (its
guard of line 64 is false), nothing is sent, and the loop leaves through `break` at the end
of this same cycle: no later cycle is run, whatever the environment would do next. -/
theorem eof_on_empty_exits (size : Nat) (s : Loop) (ev : Cycle) (r : ReadState)
    (evs : List Cycle)
    (hw : s.w_set = false) (hr : s.r_set = true) (her : ev.r_ready = true)
    (hc : c_read size s.buf s.buf_head s.buf_tail ev.reads = some r)
    (hc1 : r.c = -1) (he : empty_buf r.head r.tail = true) :
    (main_select s ev).w_set = false ∧
    main_cycle size s ev = some
      ({ s with buf := r.buf, buf_head := r.head, buf_tail := r.tail, done_reading := true,
                r_set := false, w_set := false, stored := s.stored ++ r.stored }, true) ∧
    main_loop size s (ev :: evs) = some
      ({ s with buf := r.buf, buf_head := r.head, buf_tail := r.tail, done_reading := true,
                r_set := false, w_set := false, stored := s.stored ++ r.stored }, true) := by
  have h1 : (main_select s ev).w_set = false := by simp [main_select, hw]
  have h2 : main_cycle size s ev = some
      ({ s with buf := r.buf, buf_head := r.head, buf_tail := r.tail, done_reading := true,
                r_set := false, w_set := false, stored := s.stored ++ r.stored }, true) := by
    unfold main_cycle
    simp only [main_select, hw, hr, her, Bool.and_true, Bool.false_and, Bool.not_true,
      Bool.false_eq_true, if_false, main_read, if_true, hc, hc1]
    rw [main_write_idle _ _ _ rfl]
    simp [he]
  refine ⟨h1, h2, ?_⟩
  simp only [main_loop, h2]

/-- Witness for C12: capacity 4, the initial state, stdin at end of stream. -/
theorem eof_on_empty_exits_witness :
    (main_select (main_init [0, 0, 0, 0])
        { r_ready := true, w_ready := false, reads := [ReadRes.data []],
          w1 := 0, w2 := 0 }).w_set = false ∧
    main_cycle 4 (main_init [0, 0, 0, 0])
        { r_ready := true, w_ready := false, reads := [ReadRes.data []], w1 := 0, w2 := 0 }
      = some
        ({ buf := [0, 0, 0, 0], buf_head := 0, buf_tail := 0, done_reading := true,
           r_set := false, w_set := false, stored := [] ++ [], sent := [] }, true) ∧
    main_loop 4 (main_init [0, 0, 0, 0])
        ({ r_ready := true, w_ready := false, reads := [ReadRes.data []], w1 := 0, w2 := 0 } ::
         [{ r_ready := false, w_ready := true, reads := [], w1 := 1, w2 := 0 }])
      = some
        ({ buf := [0, 0, 0, 0], buf_head := 0, buf_tail := 0, done_reading := true,
           r_set := false, w_set := false, stored := [] ++ [], sent := [] }, true) :=
  eof_on_empty_exits 4 (main_init [0, 0, 0, 0])
    { r_ready := true, w_ready := false, reads := [ReadRes.data []], w1 := 0, w2 := 0 }
    { buf := [0, 0, 0, 0], head := 0, tail := 0, more_bytes := false, n := 0, c := -1,
      stored := [], reqs := [(0, 4)] }
    [{ r_ready := false, w_ready := true, reads := [], w1 := 1, w2 := 0 }]
    rfl rfl rfl rfl rfl rfl

theorem main_write_frame (size : Nat) (s : Loop) (ev : Cycle) :
    (main_write size s ev).1.buf = s.buf ∧ (main_write size s ev).1.stored = s.stored ∧
    (main_write size s ev).1.r_set = s.r_set := by
  unfold main_write
  by_cases hw : s.w_set = true
  · cases he : empty_buf (c_write size s.buf s.buf_head s.buf_tail ev.w1 ev.w2).head
        (c_write size s.buf s.buf_head s.buf_tail ev.w1 ev.w2).tail <;> simp [hw, he]
  · cases he : empty_buf s.buf_head s.buf_tail <;> simp [hw, he]

theorem main_cycle_some (size : Nat) (s : Loop) (ev : Cycle) (s1 : Loop) (ex : Bool)
    (hrun : main_cycle size s ev = some (s1, ex)) :
    ((main_select s ev).r_set = true ∨ (main_select s ev).w_set = true) ∧
    ∃ t, main_read size (main_select s ev) ev = some t ∧ main_write size t ev = (s1, ex) := by
  unfold main_cycle at hrun
  simp only at hrun
  split at hrun
  · exact absurd hrun (by simp)
  · rename_i hsel
    split at hrun
    · exact absurd hrun (by simp)
    · rename_i t ht
      rw [Option.some.injEq] at hrun
      refine ⟨?_, t, ht, hrun⟩
      cases h1 : (main_select s ev).r_set
      · cases h2 : (main_select s ev).w_set
        · simp [h1, h2] at hsel
        · exact Or.inr rfl
      · exact Or.inl rfl

theorem done_cycle (size : Nat) (s : Loop) (ev : Cycle) (s1 : Loop) (ex : Bool)
    (hd : s.done_reading = true) (hr : s.r_set = false)
    (hrun : main_cycle size s ev = some (s1, ex)) :
    (main_select s ev).r_set = false ∧ s.w_set = true ∧
    s1.done_reading = true ∧ s1.r_set = false ∧ s1.stored = s.stored ∧ s1.buf = s.buf ∧
    (ex = true ↔ empty_buf s1.buf_head s1.buf_tail = true) ∧
    (s1.w_set = true ↔ empty_buf s1.buf_head s1.buf_tail = false) := by
  have hsel : (main_select s ev).r_set = false := by simp [main_select, hr]
  obtain ⟨hready, t, ht, hwr⟩ := main_cycle_some size s ev s1 ex hrun
  have hsw : s.w_set = true := by
    rcases hready with h | h
    · rw [hsel] at h
      exact absurd h (by simp)
    · simp only [main_select, Bool.and_eq_true] at h
      exact h.1
  have ht2 : t.done_reading = true ∧ t.r_set = false ∧ t.stored = s.stored ∧ t.buf = s.buf := by
    simp only [main_read, hsel, Bool.false_eq_true, if_false, Option.some.injEq] at ht
    subst ht
    simp [main_select, hd, hr]
  obtain ⟨t1, t2, t3, t4⟩ := ht2
  obtain ⟨a1, a2, a3⟩ := main_write_end size t ev
  obtain ⟨f1, f2, f3⟩ := main_write_frame size t ev
  rw [hwr] at a1 a2 a3 f1 f2 f3
  simp only at a1 a2 a3 f1 f2 f3
  have hd1 : s1.done_reading = true := a3.trans t1
  refine ⟨hsel, hsw, hd1, f3.trans t2, f2.trans t3, f1.trans t4, ?_, a2⟩
  rw [a1, hd1]
  simp

theorem done_loop (size : Nat) :
    ∀ (evs : List Cycle) (s s1 : Loop) (ex : Bool), s.done_reading = true → s.r_set = false →
      main_loop size s evs = some (s1, ex) →
      s1.done_reading = true ∧ s1.r_set = false ∧ s1.stored = s.stored ∧ s1.buf = s.buf ∧
      (ex = true → empty_buf s1.buf_head s1.buf_tail = true) ∧
      (ex = false → evs ≠ [] →
        empty_buf s1.buf_head s1.buf_tail = false ∧ s1.w_set = true) := by
  intro evs
  induction evs with
  | nil =>
    intro s s1 ex hd hr h
    simp only [main_loop, Option.some.injEq, Prod.mk.injEq] at h
    obtain ⟨h1, h2⟩ := h
    subst h1
    subst h2
    exact ⟨hd, hr, rfl, rfl, fun h => absurd h (by simp), fun _ h => absurd rfl h⟩
  | cons ev evs ih =>
    intro s s1 ex hd hr h
    simp only [main_loop] at h
    cases hc : main_cycle size s ev with
    | none =>
      rw [hc] at h
      simp at h
    | some p =>
      obtain ⟨t, b⟩ := p
      rw [hc] at h
      obtain ⟨_, _, c1, c2, c3, c4, c5, c6⟩ := done_cycle size s ev t b hd hr hc
      cases b with
      | true =>
        simp only [Option.some.injEq, Prod.mk.injEq] at h
        obtain ⟨h1, h2⟩ := h
        subst h1
        subst h2
        exact ⟨c1, c2, c3, c4, fun _ => c5.mp rfl, fun h => absurd h (by simp)⟩
      | false =>
        simp only at h
        obtain ⟨i1, i2, i3, i4, i5, i6⟩ := ih t s1 ex c1 c2 h
        refine ⟨i1, i2, i3.trans c3, i4.trans c4, i5, ?_⟩
        intro hex _
        by_cases hnil : evs = []
        · subst hnil
          simp only [main_loop, Option.some.injEq, Prod.mk.injEq] at h
          obtain ⟨h1, _⟩ := h
          subst h1
          have hne : empty_buf t.buf_head t.buf_tail = false := by
            cases he : empty_buf t.buf_head t.buf_tail with
            | false => rfl
            | true => exact absurd (c5.mpr he) (by simp)
          exact ⟨hne, c6.mpr hne⟩
        · exact i6 hex hnil

/-- C13: let `c_read` be called in a cycle and return -1, and let the cycle end in the state
`s0`. Then `done_reading` is set and stdin is out of `r_set`; the loop leaves at the end of
that cycle exactly when the buffer is empty. In every later cycle stdin is not in `r_set`
after `select` (so line 54 is not reached and `c_read` is not called: storage and the bytes
stored stay as they are), only stdout was registered, `done_reading` stays set, and the loop
leaves at the end of the cycle exactly when the buffer is empty, keeping stdout in `w_set`
otherwise. The same holds after any number of further cycles. -/
theorem after_end_of_input (size : Nat) (s : Loop) (ev : Cycle) (r : ReadState) (s0 : Loop)
    (ex0 : Bool)
    (hsel : (main_select s ev).r_set = true)
    (hc : c_read size s.buf s.buf_head s.buf_tail ev.reads = some r) (hc1 : r.c = -1)
    (hrun : main_cycle size s ev = some (s0, ex0)) :
    s0.done_reading = true ∧ s0.r_set = false ∧
    (ex0 = true ↔ empty_buf s0.buf_head s0.buf_tail = true) ∧
    (s0.w_set = true ↔ empty_buf s0.buf_head s0.buf_tail = false) ∧
    (∀ (ev1 : Cycle) (s1 : Loop) (ex1 : Bool), main_cycle size s0 ev1 = some (s1, ex1) →
      (main_select s0 ev1).r_set = false ∧ s0.w_set = true ∧
      s1.done_reading = true ∧ s1.r_set = false ∧ s1.stored = s0.stored ∧ s1.buf = s0.buf ∧
      (ex1 = true ↔ empty_buf s1.buf_head s1.buf_tail = true) ∧
      (s1.w_set = true ↔ empty_buf s1.buf_head s1.buf_tail = false)) ∧
    (∀ (evs : List Cycle) (s1 : Loop) (ex : Bool), main_loop size s0 evs = some (s1, ex) →
      s1.done_reading = true ∧ s1.r_set = false ∧ s1.stored = s0.stored ∧ s1.buf = s0.buf ∧
      (ex = true → empty_buf s1.buf_head s1.buf_tail = true) ∧
      (ex = false → evs ≠ [] →
        empty_buf s1.buf_head s1.buf_tail = false ∧ s1.w_set = true)) := by
  obtain ⟨_, t, ht, hwr⟩ := main_cycle_some size s ev s0 ex0 hrun
  have hc2 : c_read size (main_select s ev).buf (main_select s ev).buf_head
      (main_select s ev).buf_tail ev.reads = some r := hc
  have ht2 : t.done_reading = true ∧ t.r_set = false := by
    simp only [main_read, hsel, if_true, hc2, hc1, Option.some.injEq] at ht
    subst ht
    simp
  obtain ⟨t1, t2⟩ := ht2
  obtain ⟨a1, a2, a3⟩ := main_write_end size t ev
  obtain ⟨_, _, f3⟩ := main_write_frame size t ev
  rw [hwr] at a1 a2 a3 f3
  simp only at a1 a2 a3 f3
  have hd0 : s0.done_reading = true := a3.trans t1
  have hr0 : s0.r_set = false := f3.trans t2
  refine ⟨hd0, hr0, ?_, a2, ?_, ?_⟩
  · rw [a1, hd0]
    simp
  · intro ev1 s1 ex1 h
    exact done_cycle size s0 ev1 s1 ex1 hd0 hr0 h
  · intro evs s1 ex h
    exact done_loop size evs s0 s1 ex hd0 hr0 h

/-- Witness for C13: capacity 4 with "abc" unread; a cycle in which the read reports end of
stream, then a cycle in which the write takes the 3 bytes and the loop leaves. -/
theorem after_end_of_input_witness :
    true = true ∧ false = false ∧
    (false = true ↔ empty_buf 3 0 = true) ∧
    (true = true ↔ empty_buf 3 0 = false) ∧
    ((main_select
        { buf := [97, 98, 99, 0], buf_head := 3, buf_tail := 0, done_reading := true,
          r_set := false, w_set := true, stored := [97, 98, 99], sent := [] }
        { r_ready := false, w_ready := true, reads := [], w1 := 3, w2 := 0 }).r_set = false ∧
      true = true ∧ true = true ∧ false = false ∧
      ([97, 98, 99] : List Byte) = [97, 98, 99] ∧
      ([97, 98, 99, 0] : List Byte) = [97, 98, 99, 0] ∧
      (true = true ↔ empty_buf 3 3 = true) ∧
      (false = true ↔ empty_buf 3 3 = false)) ∧
    (true = true ∧ false = false ∧
      ([97, 98, 99] : List Byte) = [97, 98, 99] ∧
      ([97, 98, 99, 0] : List Byte) = [97, 98, 99, 0] ∧
      (true = true → empty_buf 3 3 = true) ∧
      (true = false →
        [({ r_ready := false, w_ready := true, reads := [], w1 := 3, w2 := 0 } : Cycle)] ≠ [] →
        empty_buf 3 3 = false ∧ false = true)) :=
  have h := after_end_of_input 4
    { buf := [97, 98, 99, 0], buf_head := 3, buf_tail := 0, done_reading := false,
      r_set := true, w_set := true, stored := [97, 98, 99], sent := [] }
    { r_ready := true, w_ready := false, reads := [ReadRes.data []], w1 := 0, w2 := 0 }
    { buf := [97, 98, 99, 0], head := 3, tail := 0, more_bytes := false, n := 0, c := -1,
      stored := [], reqs := [(3, 1)] }
    { buf := [97, 98, 99, 0], buf_head := 3, buf_tail := 0, done_reading := true,
      r_set := false, w_set := true, stored := [97, 98, 99], sent := [] }
    false rfl rfl rfl rfl
  ⟨h.1, h.2.1, h.2.2.1, h.2.2.2.1,
   h.2.2.2.2.1
     { r_ready := false, w_ready := true, reads := [], w1 := 3, w2 := 0 }
     { buf := [97, 98, 99, 0], buf_head := 3, buf_tail := 3, done_reading := true,
       r_set := false, w_set := false, stored := [97, 98, 99], sent := [97, 98, 99] }
     true rfl,
   h.2.2.2.2.2
     [{ r_ready := false, w_ready := true, reads := [], w1 := 3, w2 := 0 }]
     { buf := [97, 98, 99, 0], buf_head := 3, buf_tail := 3, done_reading := true,
       r_set := false, w_set := false, stored := [97, 98, 99], sent := [97, 98, 99] }
     true rfl⟩

/-! ## `c_read`: a call that moves `tail` -/

theorem behind_store_short (size : Nat) (buf bs : List Byte) (head : Nat)
    (hlen : buf.length = size) (hn : head + bs.length < size) :
    behind (store buf head bs) (head + bs.length) = (behind buf head ++ bs).drop bs.length := by
  unfold behind
  rw [drop_store buf head bs _ (by omega) (by omega), take_store buf head bs (by omega),
    List.append_assoc,
    List.drop_append_of_le_length (by rw [List.length_drop, hlen]; omega), List.drop_drop]
  congr 2
  omega

theorem behind_store_full (size : Nat) (buf bs : List Byte) (head : Nat)
    (hlen : buf.length = size) (hh : head < size) (hn : head + bs.length = size) :
    behind (store buf head bs) 0 = (behind buf head ++ bs).drop bs.length := by
  have hst : store buf head bs = List.take head buf ++ bs := by
    have := take_store buf head bs (by omega)
    rw [← this, List.take_of_length_le]
    rw [length_store _ _ _ (by omega)]
    omega
  have hdl : (List.drop (head + 1) buf).length = bs.length - 1 := by
    rw [List.length_drop, hlen]
    omega
  have hr : (behind buf head ++ bs).drop bs.length = (List.take head buf ++ bs).drop 1 := by
    unfold behind
    rw [List.append_assoc, List.drop_append_eq_append_drop,
      List.drop_of_length_le (by omega), List.nil_append, hdl]
    congr 1
    omega
  rw [hr]
  unfold behind
  rw [hst, List.take_zero, List.append_nil]

theorem full_cases (size head tail : Nat) (hh : head < size) (ht : tail < size)
    (hf : buffered size head tail = size - 1) :
    (head < tail ∧ tail = head + 1) ∨ (tail = 0 ∧ head + 1 = size) := by
  by_cases h : tail ≤ head
  · rw [buffered_of_le size head tail h hh] at hf
    right
    omega
  · rw [buffered_of_lt size head tail (by omega) ht] at hf
    left
    omega

theorem unread_eq_behind (size : Nat) (buf : List Byte) (head tail : Nat)
    (hlen : buf.length = size) (hh : head < size) (ht : tail < size)
    (hf : buffered size head tail = size - 1) :
    unread buf head tail = behind buf head := by
  unfold unread behind
  rcases full_cases size head tail hh ht hf with ⟨h1, h2⟩ | ⟨h1, h2⟩
  · rw [if_neg (by omega), h2]
  · rw [if_pos (by omega), h1, List.drop_zero, Nat.sub_zero,
      List.drop_of_length_le (by omega), List.nil_append]

theorem behind_split (size : Nat) (buf : List Byte) (head tail : Nat)
    (hlen : buf.length = size) (hh : head < size) (ht : tail < size) :
    ∃ X, behind buf head = X ++ unread buf head tail ∧
      X.length + buffered size head tail = size - 1 := by
  by_cases h : tail ≤ head
  · refine ⟨List.drop (head + 1) buf ++ List.take tail buf, ?_, ?_⟩
    · unfold behind unread
      rw [if_pos h, List.append_assoc, ← List.take_add]
      congr 2
      omega
    · rw [buffered_of_le size head tail h hh]
      simp only [List.length_append, List.length_drop, List.length_take, hlen]
      omega
  · refine ⟨List.take (tail - head - 1) (List.drop (head + 1) buf), ?_, ?_⟩
    · unfold behind unread
      rw [if_neg h, ← List.append_assoc]
      congr 1
      have h1 := List.take_append_drop (tail - head - 1) (List.drop (head + 1) buf)
      rw [List.drop_drop] at h1
      have h2 : head + 1 + (tail - head - 1) = tail := by omega
      rw [h2] at h1
      exact h1.symm
    · rw [buffered_of_lt size head tail (by omega) ht]
      simp only [List.length_take, List.length_drop, hlen]
      omega

theorem c_read_body_fail (size : Nat) (s : ReadState) (e : Errno) :
    (c_read_body size s (ReadRes.fail e)).buf = s.buf ∧
    (c_read_body size s (ReadRes.fail e)).head = s.head ∧
    (c_read_body size s (ReadRes.fail e)).tail = s.tail ∧
    (c_read_body size s (ReadRes.fail e)).stored = s.stored ∧
    (c_read_body size s (ReadRes.fail e)).more_bytes = false := by
  simp [c_read_body]

theorem c_read_body_eof (size : Nat) (s : ReadState) :
    (c_read_body size s (ReadRes.data [])).buf = s.buf ∧
    (c_read_body size s (ReadRes.data [])).head = s.head ∧
    (c_read_body size s (ReadRes.data [])).tail = s.tail ∧
    (c_read_body size s (ReadRes.data [])).stored = s.stored ∧
    (c_read_body size s (ReadRes.data [])).more_bytes = false := by
  simp [c_read_body]

theorem buffered_succ (size k : Nat) (h2 : 2 ≤ size) (hk : k < size) :
    buffered size k ((k + 1) % size) = size - 1 := by
  by_cases hw : k + 1 < size
  · rw [Nat.mod_eq_of_lt hw, buffered_of_lt size _ _ (by omega) hw]
    omega
  · have hw2 : k + 1 = size := by omega
    rw [hw2, Nat.mod_self, buffered_of_le size _ 0 (Nat.zero_le _) hk]
    omega

theorem c_read_body_data (size : Nat) (s : ReadState) (bs : List Byte)
    (h2 : 2 ≤ size) (hsize : size < 4294967296) (hlen : s.buf.length = size)
    (hh : s.head < size) (ht : s.tail < size)
    (hn1 : 1 ≤ bs.length) (hn2 : bs.length ≤ size - s.head) :
    (c_read_body size s (ReadRes.data bs)).stored = s.stored ++ bs ∧
    behind (c_read_body size s (ReadRes.data bs)).buf (c_read_body size s (ReadRes.data bs)).head
      = (behind s.buf s.head ++ bs).drop bs.length ∧
    buffered size (c_read_body size s (ReadRes.data bs)).head
        (c_read_body size s (ReadRes.data bs)).tail
      ≤ buffered size s.head s.tail + bs.length ∧
    ((c_read_body size s (ReadRes.data bs)).tail ≠ s.tail →
      buffered size (c_read_body size s (ReadRes.data bs)).head
          (c_read_body size s (ReadRes.data bs)).tail = size - 1 ∧
      size ≤ buffered size s.head s.tail + bs.length ∧
      ((c_read_body size s (ReadRes.data bs)).more_bytes = true →
        (c_read_body size s (ReadRes.data bs)).head = 0 ∧
        (c_read_body size s (ReadRes.data bs)).tail = 1)) ∧
    (s.head = 0 → s.tail = 1 →
      buffered size (c_read_body size s (ReadRes.data bs)).head
          (c_read_body size s (ReadRes.data bs)).tail = size - 1 ∧
      ((c_read_body size s (ReadRes.data bs)).more_bytes = true →
        (c_read_body size s (ReadRes.data bs)).head = 0 ∧
        (c_read_body size s (ReadRes.data bs)).tail = 1)) := by
  have hb01 : buffered size 0 1 = size - 1 := by
    rw [buffered_of_lt size 0 1 (by omega) (by omega)]
    omega
  by_cases hfull : s.head + bs.length = size
  · rw [c_read_body_full size s bs hsize hh hfull]
    simp only
    refine ⟨trivial, behind_store_full size s.buf bs s.head hlen hh hfull, ?_, ?_, ?_⟩
    · by_cases h0 : s.tail = 0
      · rw [if_pos h0, hb01, h0, buffered_of_le size s.head 0 (Nat.zero_le _) hh]
        omega
      · rw [if_neg h0, buffered_of_lt size 0 s.tail (by omega) ht]
        by_cases hle : s.tail ≤ s.head
        · rw [buffered_of_le size s.head s.tail hle hh]
          omega
        · rw [buffered_of_lt size s.head s.tail (by omega) ht]
          omega
    · intro hmv
      by_cases h0 : s.tail = 0
      · have key : (if s.tail = 0 then 1 else s.tail) = 1 := if_pos h0
        have hb : buffered size s.head s.tail = s.head := by
          rw [h0]
          exact buffered_of_le size s.head 0 (Nat.zero_le _) hh
        rw [key, hb, hb01]
        refine ⟨?_, ?_, ?_⟩ <;> first | omega | simp
      · rw [if_neg h0] at hmv
        exact absurd rfl hmv
    · intro _ h1
      rw [h1, if_neg (by omega), hb01]
      simp
  · have hshort : s.head + bs.length < size := by omega
    rw [c_read_body_short size s bs hsize hn1 hshort]
    simp only
    refine ⟨trivial, behind_store_short size s.buf bs s.head hlen hshort, ?_, ?_, ?_⟩
    · by_cases hc : s.head < s.tail ∧ s.tail ≤ s.head + bs.length
      · rw [if_pos hc, buffered_succ size _ h2 hshort,
          buffered_of_lt size s.head s.tail hc.1 ht]
        omega
      · rw [if_neg hc]
        by_cases hle : s.tail ≤ s.head
        · rw [buffered_of_le size s.head s.tail hle hh,
            buffered_of_le size _ s.tail (by omega) hshort]
          omega
        · rw [buffered_of_lt size s.head s.tail (by omega) ht,
            buffered_of_lt size _ s.tail (by omega) ht]
          omega
    · intro hmv
      by_cases hc : s.head < s.tail ∧ s.tail ≤ s.head + bs.length
      · rw [if_pos hc, buffered_succ size _ h2 hshort,
          buffered_of_lt size s.head s.tail hc.1 ht]
        exact ⟨rfl, by omega, fun h => absurd h (by simp)⟩
      · rw [if_neg hc] at hmv
        exact absurd rfl hmv
    · intro h0 h1
      have hc : s.head < s.tail ∧ s.tail ≤ s.head + bs.length := by omega
      rw [if_pos hc, buffered_succ size _ h2 hshort]
      exact ⟨rfl, fun h => absurd h (by simp)⟩

theorem tail_moves_done (size : Nat) (s : ReadState) (rs : List ReadRes)
    (h : s.more_bytes = false) : tail_moves size s rs = false := by
  cases rs <;> simp [tail_moves, h]

theorem reads_valid_head (size : Nat) (s : ReadState) (x : ReadRes) (xs : List ReadRes)
    (hsize : size < 4294967296) (hh : s.head < size) (hm : s.more_bytes = true)
    (hv : reads_valid size s (x :: xs) = true) :
    (∀ bs, x = ReadRes.data bs → bs.length ≤ size - s.head) ∧
    reads_valid size (c_read_body size s x) xs = true := by
  simp only [reads_valid, hm, if_true, Bool.and_eq_true] at hv
  have e1 : toU32 ((size : Int) - (s.head : Int)) = size - s.head :=
    toU32_sub size s.head (by omega) hsize
  refine ⟨?_, hv.2⟩
  intro bs hx
  have := hv.1
  rw [hx] at this
  simpa [e1] using this

theorem c_read_loop_stays_full (size : Nat) (h2 : 2 ≤ size) (hsize : size < 4294967296) :
    ∀ (rs : List ReadRes) (s r : ReadState), s.buf.length = size → s.head < size →
      s.tail < size → reads_valid size s rs = true →
      (s.more_bytes = true → s.head = 0 ∧ s.tail = 1) →
      buffered size s.head s.tail = size - 1 →
      c_read_loop size s rs = some r → buffered size r.head r.tail = size - 1 := by
  intro rs
  induction rs with
  | nil =>
    intro s r _ _ _ _ _ hf hr
    by_cases hm : s.more_bytes = true
    · simp [c_read_loop, hm] at hr
    · simp only [c_read_loop, hm, if_false, Option.some.injEq, Bool.false_eq_true] at hr
      subst hr
      exact hf
  | cons x xs ih =>
    intro s r hlen hh ht hv h01 hf hr
    by_cases hm : s.more_bytes = true
    · simp only [c_read_loop, hm, if_true] at hr
      obtain ⟨hvx, hvr⟩ := reads_valid_head size s x xs hsize hh hm hv
      obtain ⟨b1, b2, b3, _, _⟩ := c_read_body_inv size s x h2 hsize hlen hh ht hvx
      obtain ⟨g0, g1⟩ := h01 hm
      have hnodata : ∀ t : ReadState, t.head = s.head → t.tail = s.tail →
          t.more_bytes = false →
          (t.more_bytes = true → t.head = 0 ∧ t.tail = 1) ∧
          buffered size t.head t.tail = size - 1 := by
        intro t e1 e2 e3
        rw [e1, e2]
        exact ⟨fun h => by rw [e3] at h; exact absurd h (by simp), hf⟩
      have key : ((c_read_body size s x).more_bytes = true →
            (c_read_body size s x).head = 0 ∧ (c_read_body size s x).tail = 1) ∧
          buffered size (c_read_body size s x).head (c_read_body size s x).tail
            = size - 1 := by
        cases x with
        | fail e =>
          obtain ⟨_, q2, q3, _, q5⟩ := c_read_body_fail size s e
          exact hnodata _ q2 q3 q5
        | data bs =>
          by_cases hbs : bs = []
          · subst hbs
            obtain ⟨_, q2, q3, _, q5⟩ := c_read_body_eof size s
            exact hnodata _ q2 q3 q5
          · have hn1 : 1 ≤ bs.length := by
              cases bs with
              | nil => exact absurd rfl hbs
              | cons _ _ => simp
            obtain ⟨_, _, _, _, d5⟩ :=
              c_read_body_data size s bs h2 hsize hlen hh ht hn1 (hvx bs rfl)
            obtain ⟨d6, d7⟩ := d5 g0 g1
            exact ⟨d7, d6⟩
      exact ih _ r b3 b1 b2 hvr key.1 key.2 hr
    · simp only [c_read_loop, hm, if_false, Option.some.injEq, Bool.false_eq_true] at hr
      subst hr
      exact hf

theorem drop_drop_append (l d : List Byte) (a b : Nat) (ha : a ≤ l.length) :
    (l.drop a ++ d).drop b = (l ++ d).drop (a + b) := by
  rw [← List.drop_append_of_le_length ha, List.drop_drop]

theorem c_read_loop_ring (size : Nat) (h2 : 2 ≤ size) (hsize : size < 4294967296) :
    ∀ (rs : List ReadRes) (s r : ReadState), s.buf.length = size → s.head < size →
      s.tail < size → reads_valid size s rs = true → c_read_loop size s rs = some r →
      ∃ D, r.stored = s.stored ++ D ∧
        behind r.buf r.head = (behind s.buf s.head ++ D).drop D.length ∧
        buffered size r.head r.tail ≤ buffered size s.head s.tail + D.length ∧
        (tail_moves size s rs = true →
          buffered size r.head r.tail = size - 1 ∧
          size ≤ buffered size s.head s.tail + D.length) := by
  intro rs
  induction rs with
  | nil =>
    intro s r _ _ _ _ hr
    by_cases hm : s.more_bytes = true
    · simp [c_read_loop, hm] at hr
    · simp only [c_read_loop, hm, if_false, Option.some.injEq, Bool.false_eq_true] at hr
      subst hr
      exact ⟨[], by simp, by simp, by simp, by simp [tail_moves]⟩
  | cons x xs ih =>
    intro s r hlen hh ht hv hr
    by_cases hm : s.more_bytes = true
    · simp only [c_read_loop, hm, if_true] at hr
      obtain ⟨hvx, hvr⟩ := reads_valid_head size s x xs hsize hh hm hv
      obtain ⟨b1, b2, b3, _, _⟩ := c_read_body_inv size s x h2 hsize hlen hh ht hvx
      have hnodata : (c_read_body size s x).buf = s.buf →
          (c_read_body size s x).head = s.head → (c_read_body size s x).tail = s.tail →
          (c_read_body size s x).stored = s.stored →
          (c_read_body size s x).more_bytes = false →
          ∃ D, r.stored = s.stored ++ D ∧
            behind r.buf r.head = (behind s.buf s.head ++ D).drop D.length ∧
            buffered size r.head r.tail ≤ buffered size s.head s.tail + D.length ∧
            (tail_moves size s (x :: xs) = true →
              buffered size r.head r.tail = size - 1 ∧
              size ≤ buffered size s.head s.tail + D.length) := by
        intro q1 q2 q3 q4 q5
        rw [c_read_loop_done size _ xs q5, Option.some.injEq] at hr
        subst hr
        refine ⟨[], by simp [q4], by simp [q1, q2], by simp [q2, q3], ?_⟩
        intro hmv
        simp only [tail_moves, hm, if_true, q3, bne_self_eq_false, Bool.false_or,
          tail_moves_done size _ xs q5] at hmv
        exact absurd hmv (by simp)
      cases x with
      | fail e =>
        obtain ⟨q1, q2, q3, q4, q5⟩ := c_read_body_fail size s e
        exact hnodata q1 q2 q3 q4 q5
      | data bs =>
        by_cases hbs : bs = []
        · subst hbs
          obtain ⟨q1, q2, q3, q4, q5⟩ := c_read_body_eof size s
          exact hnodata q1 q2 q3 q4 q5
        · have hn1 : 1 ≤ bs.length := by
            cases bs with
            | nil => exact absurd rfl hbs
            | cons _ _ => simp
          obtain ⟨d1, d2, d3, d4, _⟩ :=
            c_read_body_data size s bs h2 hsize hlen hh ht hn1 (hvx bs rfl)
          obtain ⟨D, i1, i2, i3, i4⟩ := ih _ r b3 b1 b2 hvr hr
          refine ⟨bs ++ D, ?_, ?_, ?_, ?_⟩
          · rw [i1, d1, List.append_assoc]
          · rw [i2, d2, drop_drop_append _ _ _ _ (by simp), List.append_assoc,
              List.length_append]
          · rw [List.length_append]
            omega
          · intro hmv
            rw [List.length_append]
            simp only [tail_moves, hm, if_true, Bool.or_eq_true, bne_iff_ne, ne_eq] at hmv
            rcases hmv with hmv | hmv
            · obtain ⟨m1, m2, m3⟩ := d4 hmv
              have hfull := c_read_loop_stays_full size h2 hsize xs _ r b3 b1 b2 hvr m3 m1 hr
              exact ⟨hfull, by omega⟩
            · obtain ⟨j1, j2⟩ := i4 hmv
              exact ⟨j1, by omega⟩
    · have hm' : s.more_bytes = false := by simpa using hm
      rw [c_read_loop_done size s _ hm', Option.some.injEq] at hr
      subst hr
      refine ⟨[], by simp, by simp, by simp, ?_⟩
      intro hmv
      rw [tail_moves_done size _ _ hm'] at hmv
      exact absurd hmv (by simp)

theorem tail_kept (size : Nat) :
    ∀ (rs : List ReadRes) (s r : ReadState), tail_moves size s rs = false →
      c_read_loop size s rs = some r → r.tail = s.tail := by
  intro rs
  induction rs with
  | nil =>
    intro s r _ hr
    by_cases hm : s.more_bytes = true
    · simp [c_read_loop, hm] at hr
    · simp only [c_read_loop, hm, if_false, Option.some.injEq, Bool.false_eq_true] at hr
      subst hr
      rfl
  | cons x xs ih =>
    intro s r hmv hr
    by_cases hm : s.more_bytes = true
    · simp only [c_read_loop, hm, if_true] at hr
      simp only [tail_moves, hm, if_true, Bool.or_eq_false_iff, bne_eq_false_iff_eq] at hmv
      rw [ih _ r hmv.2 hr, hmv.1]
    · simp only [c_read_loop, hm, if_false, Option.some.injEq, Bool.false_eq_true] at hr
      subst hr
      rfl

/-- C9 (amended): for every capacity `size >= 2` and every state with `head < size` and
`tail < size`, whenever a `c_read` call moves `tail` (in some pass of its loop, in particular
whenever `tail` differs after the call), the buffer afterwards holds exactly `size - 1`
unread bytes: they are the bytes unread before the call followed by the bytes stored in the
call, in order, without the first `lost = before + stored - (size - 1)` of them, and
`lost >= 1`. -/
theorem c_read_tail_moved (size : Nat) (buf : List Byte) (head tail : Nat)
    (rs : List ReadRes) (r : ReadState)
    (h2 : 2 ≤ size) (hsize : size < 4294967296) (hlen : buf.length = size)
    (hh : head < size) (ht : tail < size)
    (hv : c_read_valid size buf head tail rs = true)
    (hr : c_read size buf head tail rs = some r)
    (hmv : c_read_moves_tail size buf head tail rs = true ∨ r.tail ≠ tail) :
    buffered size r.head r.tail = size - 1 ∧
    1 ≤ buffered size head tail + r.stored.length - (size - 1) ∧
    unread r.buf r.head r.tail
      = (unread buf head tail ++ r.stored).drop
          (buffered size head tail + r.stored.length - (size - 1)) := by
  have hmv1 : c_read_moves_tail size buf head tail rs = true := by
    rcases hmv with h | h
    · exact h
    · cases hc : c_read_moves_tail size buf head tail rs with
      | true => rfl
      | false => exact absurd (tail_kept size rs _ r hc hr) h
  obtain ⟨i1, i2, i3, _, _⟩ := c_read_loop_inv size h2 hsize rs _ r hlen hh ht hv hr
  obtain ⟨D, d1, d2, _, d4⟩ := c_read_loop_ring size h2 hsize rs _ r hlen hh ht hv hr
  obtain ⟨f1, f2⟩ := d4 hmv1
  simp only [List.nil_append] at d1 d2 f2
  obtain ⟨X, x1, x2⟩ := behind_split size buf head tail hlen hh ht
  rw [d1]
  refine ⟨f1, by omega, ?_⟩
  rw [unread_eq_behind size r.buf r.head r.tail i3 i1 i2 f1, d2, x1, List.append_assoc,
    List.drop_append_eq_append_drop, List.drop_of_length_le (by omega), List.nil_append]
  congr 1
  omega

/-- Witness for the amended C9: capacity 4, `head = 3`, `tail = 2`, "c" unread; the reads of
the call deliver "d" (an exact fill) and then "efg". `tail` ends at 0, "efg" is unread, and
"c" and "d" are lost. -/
theorem c_read_tail_moved_witness :
    buffered 4 3 0 = 4 - 1 ∧
    1 ≤ buffered 4 3 2 + ([100, 101, 102, 103] : List Byte).length - (4 - 1) ∧
    unread [101, 102, 103, 100] 3 0
      = (unread [97, 98, 99, 0] 3 2 ++ [100, 101, 102, 103]).drop
          (buffered 4 3 2 + ([100, 101, 102, 103] : List Byte).length - (4 - 1)) :=
  c_read_tail_moved 4 [97, 98, 99, 0] 3 2
    [ReadRes.data [100], ReadRes.data [101, 102, 103]]
    { buf := [101, 102, 103, 100], head := 3, tail := 0, more_bytes := false, n := 3, c := 3,
      stored := [100, 101, 102, 103], reqs := [(3, 1), (0, 4)] }
    (by decide) (by decide) (by decide) (by decide) (by decide) (by decide) rfl
    (Or.inl (by decide))

end CircBuff
